import Mathlib

/-!
# Verification of the Chinese-Elite knowledge-graph pipeline

Shallow embedding of the pipeline's core data manipulation
(`scripts/merge_graphs.py`, `scripts/clean_data.py`,
`scripts/clients/wikipedia_client.py`, `scripts/services/llm_service.py`,
`scripts/api_rate_limiter.py`, `scripts/process_list.py`) together with
theorems settling the spec claims about it.

Python JSON-like values are embedded as the inductive `PVal`; Python `dict`s
become insertion-ordered association lists with the exact `dict` update
semantics (replacing in place on existing keys, appending otherwise).
Network and LLM effects are passed in as explicit oracle parameters.
-/

set_option maxHeartbeats 1000000

namespace ChineseElite

/-- A Python/JSON value as manipulated by the pipeline: strings, integers,
booleans, `None`, lists, and dicts (insertion-ordered key/value lists). -/
inductive PVal where
  | str (s : String)
  | int (n : Int)
  | bool (b : Bool)
  | none
  | list (l : List PVal)
  | dict (d : List (String × PVal))
  deriving Repr, Inhabited

/-- A Python dict with string keys, as used for nodes and relationships. -/
abbrev Dict := List (String × PVal)

variable {α : Type}

/-- `d.get(k)`: first binding of `k` in a string-keyed association list
(a Python dict). -/
def dictGet (d : List (String × α)) (k : String) : Option α :=
  match d with
  | [] => Option.none
  | (k', v) :: rest => if k' = k then some v else dictGet rest k

/-- `k in d`. -/
def dictHas (d : List (String × α)) (k : String) : Bool :=
  match d with
  | [] => false
  | (k', _) :: rest => k' = k || dictHas rest k

/-- `del d[k]` (also models filtering a key out). -/
def dictErase (d : List (String × α)) (k : String) : List (String × α) :=
  match d with
  | [] => []
  | (k', v) :: rest =>
    if k' = k then dictErase rest k else (k', v) :: dictErase rest k

/-- `d[k] = v`: replace in place if the key exists, else append —
Python dict assignment preserves insertion order. -/
def dictSet (d : List (String × α)) (k : String) (v : α) : List (String × α) :=
  match d with
  | [] => [(k, v)]
  | (k', v') :: rest =>
    if k' = k then (k', v) :: rest else (k', v') :: dictSet rest k v

/-- `base.update(upd)`: fold the updates left to right. -/
def dictUpdate (base upd : List (String × α)) : List (String × α) :=
  upd.foldl (fun b p => dictSet b p.1 p.2) base

/-- Keep only bindings whose key satisfies `keep` (models the
`for key in list(d): if key not in allowed: del d[key]` idiom). -/
def dictFilterKeys (d : List (String × α)) (keep : String → Bool) : List (String × α) :=
  match d with
  | [] => []
  | (k', v) :: rest =>
    if keep k' then (k', v) :: dictFilterKeys rest keep else dictFilterKeys rest keep

/-! ## String helpers

Python string operations used by the pipeline, implemented over `List Char`
so that all of them evaluate by kernel reduction. Python `str.lower` is
modelled on the ASCII range (the identity on CJK characters, which is what
Python does there as well). -/

/-- ASCII lowercasing of one character. -/
def charLower (c : Char) : Char :=
  if 'A' ≤ c ∧ c ≤ 'Z' then Char.ofNat (c.toNat + 32) else c

/-- `s.lower()` (ASCII model). -/
def pyLower (s : String) : String := String.mk (s.data.map charLower)

/-- Python's notion of whitespace for `str.strip`. -/
def isPySpace (c : Char) : Bool :=
  c = ' ' || c = '\t' || c = '\n' || c = '\r' || c = '\x0b' || c = '\x0c'

/-- `s.strip()`. -/
def pyStrip (s : String) : String :=
  String.mk (((s.data.dropWhile isPySpace).reverse.dropWhile isPySpace).reverse)

/-- `s.lstrip()`. -/
def pyLStrip (s : String) : String := String.mk (s.data.dropWhile isPySpace)

/-- `s.replace('_', ' ')` (single-character replacement). -/
def replaceUnderscore (s : String) : String :=
  String.mk (s.data.map (fun c => if c = '_' then ' ' else c))

/-- `s.split('#')[0]`: everything before the first `#`. -/
def beforeHash (s : String) : String :=
  String.mk (s.data.takeWhile (fun c => c ≠ '#'))

/-- `s.split(':', 1)[-1]`: everything after the first `:`, or `s` itself when
there is no `:` (used to recover the original name from a temporary id). -/
def afterFirstColon (s : String) : String :=
  if s.data.contains ':' then
    String.mk ((s.data.dropWhile (fun c => c ≠ ':')).drop 1)
  else s

/-- Does `pat` occur at the head of `l`? -/
def charsStartWith : List Char → List Char → Bool
  | _, [] => true
  | [], _ :: _ => false
  | a :: as, b :: bs => a = b && charsStartWith as bs

/-- `s.startswith(p)`. -/
def startsWithB (s p : String) : Bool := charsStartWith s.data p.data

/-- Substring occurrence on character lists (`pat in s` for Python strings). -/
def charsContain : List Char → List Char → Bool
  | _, [] => true
  | [], _ :: _ => false
  | a :: as, pat => charsStartWith (a :: as) pat || charsContain as pat

/-- `p in s` for Python strings. -/
def containsSub (s p : String) : Bool := charsContain s.data p.data

/-- Codepoint-lexicographic `≤` on strings, Python's string ordering. -/
def charsLe : List Char → List Char → Bool
  | [], _ => true
  | _ :: _, [] => false
  | a :: as, b :: bs => if a = b then charsLe as bs else decide (a ≤ b)

/-- Python `a <= b` on strings. -/
def strLeB (a b : String) : Bool := charsLe a.data b.data

/-- `sorted((a, b))` on two strings. -/
def sortPair (a b : String) : String × String :=
  if strLeB a b then (a, b) else (b, a)

/-- Order-preserving deduplication, `list(dict.fromkeys(xs))`. -/
def dedupKeepOrder (xs : List String) : List String :=
  (xs.foldl (fun acc x => if acc.contains x then acc else acc ++ [x]) [])

/-- Insert into a `strLeB`-sorted list. -/
def insertSorted (x : String) : List String → List String
  | [] => [x]
  | y :: ys => if strLeB x y then x :: y :: ys else y :: insertSorted x ys

/-- `sorted(xs)` for Python string lists. -/
def sortStrings (xs : List String) : List String :=
  xs.foldl (fun acc x => insertSorted x acc) []

/-! ## API rate limiter (`scripts/api_rate_limiter.py`)

`APIRateLimiter.limit` wraps an LLM-calling function. `_check_and_wait`
raises `DailyQuotaExceededError` exactly when an RPD limit is configured and
today's counter has reached it; the `except` clause then dispatches a
fallback value on the *name* of the wrapped function. -/

/-- An untyped Python return value of a wrapped call, as the decorator sees
it: the fallback constants `True`, `[]`, `None`, or whatever the wrapped
function produced. -/
inductive PyRet where
  | pyBool (b : Bool)
  | pyList (l : List PVal)
  | pyNone
  | value (v : PVal)
  deriving Repr

/-- `_check_and_wait`'s quota test: raise iff `rpd_limit is not None` and
`daily_count >= rpd_limit`. -/
def quotaExceeded (rpdLimit : Option Nat) (dailyCount : Nat) : Bool :=
  match rpdLimit with
  | some l => dailyCount ≥ l
  | Option.none => false

/-- The `except DailyQuotaExceededError` dispatch of `APIRateLimiter.limit`:
`"merge_llm" in func.__name__ → True`, `"cleaner_llm" in func.__name__ → []`,
otherwise `None`. -/
def quotaFallback (funcName : String) : PyRet :=
  if containsSub funcName "merge_llm" then .pyBool true
  else if containsSub funcName "cleaner_llm" then .pyList []
  else .pyNone

/-- The wrapper produced by `APIRateLimiter.limit`: when the daily quota is
exhausted the wrapped function is not invoked and the name-dispatched
fallback is returned; otherwise the wrapped function runs. (The RPM sliding
window and the counter increment only affect timing and the persisted count,
not the returned value.) -/
def limitedCall (funcName : String) (rpdLimit : Option Nat) (dailyCount : Nat)
    (func : Unit → PyRet) : PyRet :=
  if quotaExceeded rpdLimit dailyCount then quotaFallback funcName else func ()

/-- `gemma_limiter`'s configured RPD limit (wraps the merge-check calls). -/
def gemmaRpdLimit : Nat := 16200

/-- `gemini_flash_lite_limiter`'s configured RPD limit (wraps the
relation-cleaner calls). -/
def gemmaFlashLiteRpdLimit : Nat := 1125

/-! ## List processor (`scripts/process_list.py`)

`ListProcessor._should_process_item`, with times as integer seconds and the
wiki latest-revision lookup as an oracle. The returned pair is
`(decision, wiki_called)`: the second component records whether
`get_latest_revision_time` was invoked. -/

/-- `PROB_START_DAY` from `scripts/config.py`. -/
def PROB_START_DAY : Int := 7

/-- `PROB_END_DAY` from `scripts/config.py`. -/
def PROB_END_DAY : Int := 30

/-- `PROB_START_VALUE` from `scripts/config.py`. -/
def PROB_START_VALUE : ℚ := 1 / 12

/-- `PROB_END_VALUE` from `scripts/config.py`. -/
def PROB_END_VALUE : ℚ := 9 / 10

/-- `timedelta.days`: floor division of the difference in seconds. -/
def timedeltaDays (diffSeconds : Int) : Int := Int.fdiv diffSeconds 86400

/-- `ListProcessor._should_process_item`. `lastLocal` is the newest local
fragment time (`None` when never processed), `wikiTime` the
`get_latest_revision_time` oracle, `rand` the `random.random()` draw. -/
def shouldProcessItem (now : Int) (lastLocal : Option Int)
    (wikiTime : Unit → Option Int) (rand : ℚ) : Bool × Bool :=
  match lastLocal with
  | Option.none => (true, false)
  | some t =>
    let age := timedeltaDays (now - t)
    if age ≤ PROB_START_DAY then (false, false)
    else
      let wk := wikiTime ()
      if (match wk with | some w => decide (w ≤ t) | Option.none => false) then
        (false, true)
      else if PROB_START_DAY < age ∧ age ≤ PROB_END_DAY then
        let ratio : ℚ := ((age - PROB_START_DAY : ℤ) : ℚ) /
          ((PROB_END_DAY - PROB_START_DAY : ℤ) : ℚ)
        let probability := PROB_START_VALUE + (PROB_END_VALUE - PROB_START_VALUE) * ratio
        if rand ≥ probability then (false, true) else (true, true)
      else (true, true)

/-! ## Wikipedia client (`scripts/clients/wikipedia_client.py`)

`_check_wiki_status_api` with the HTTP layer abstracted into a fetch result,
and `check_link_status` with its cache and its fallback probes as explicit
oracles. OpenCC's traditional→simplified converter is a function parameter
`t2s`. -/

/-- The outcome of the raw-content HTTP fetch inside `_check_wiki_status_api`:
a 404, a transport failure (`requests.exceptions.RequestException`, whose
string becomes the detail), or a response body. -/
inductive FetchResult where
  | notFound
  | failure (msg : String)
  | body (text : String)
  deriving Repr

/-- After an opening `[[`, collect the shortest run of non-newline characters
up to a closing `]]` (the `(.*?)` of `re.search(r'\[\[(.*?)\]\]', content)`);
fails at a newline or the end of input. -/
def grabLink : List Char → Option (List Char)
  | ']' :: ']' :: _ => some []
  | '\n' :: _ => Option.none
  | c :: rest => (grabLink rest).map (fun l => c :: l)
  | [] => Option.none

/-- `re.search(r'\[\[(.*?)\]\]', content)`: scan left to right for the first
position where `[[ … ]]` matches within one line; on a failed match the scan
resumes one character further, exactly like the regex engine. -/
def extractFirstLink : List Char → Option (List Char)
  | [] => Option.none
  | c :: rest =>
    if c = '[' then
      match rest with
      | '[' :: rest₂ =>
        (match grabLink rest₂ with
         | some inner => some inner
         | Option.none => extractFirstLink rest)
      | _ => extractFirstLink rest
    else extractFirstLink rest

/-- `WikipediaClient._check_wiki_status_api`, given the fetched raw content.
Returns the `(status, detail)` pair. -/
def checkWikiStatusApi (t2s : String → String) (nodeId lang : String)
    (fetch : FetchResult) : String × Option String :=
  match fetch with
  | .notFound => ("NO_PAGE", Option.none)
  | .failure msg => ("ERROR", some msg)
  | .body text =>
    let content := pyStrip text
    if content = "" then ("NO_PAGE", Option.none)
    else
      let normalized := pyLStrip (pyLower content)
      if startsWithB normalized "#redirect" || startsWithB normalized "#重定向" then
        match extractFirstLink content.data with
        | some inner =>
          let redirectTarget := beforeHash (pyStrip (String.mk inner))
          if lang = "zh" then
            let simplifiedTarget := t2s redirectTarget
            let normSimplifiedTarget := pyLower (replaceUnderscore simplifiedTarget)
            let normNodeId := pyLower (replaceUnderscore nodeId)
            if normSimplifiedTarget = normNodeId then
              ("SIMP_TRAD_REDIRECT", some redirectTarget)
            else
              ("REDIRECT", some redirectTarget)
          else ("REDIRECT", some redirectTarget)
        | Option.none => ("ERROR", some "Malformed redirect")
      else if containsSub normalized "\x7b\x7bdisambig" ||
          containsSub normalized "\x7b\x7bhndis" then
        ("DISAMBIG", Option.none)
      else ("OK", Option.none)

/-- An entry of the link-status cache: the `{'status','detail','timestamp'}`
dict written by `check_link_status`. -/
structure LinkEntry where
  status : String
  detail : Option String
  timestamp : String
  deriving Repr

/-- `WikipediaClient.check_link_status`. `wikiApi` is the (already
rate-limited) `_check_wiki_status_api` call, `baiduOk`/`cdtOk` are the
`check_generic_url` probes against the two fallback sources, and `nowIso`
the timestamp written into fresh cache entries. Returns the `(status,
detail)` result, the updated cache, and the log of external requests made
(one entry per wiki / Baidu / CDT request). -/
def checkLinkStatus (wikiApi : String → String → String × Option String)
    (baiduOk cdtOk : String → Bool) (nowIso : String)
    (cache : List (String × LinkEntry)) (nodeId lang : String) :
    (String × Option String) × List (String × LinkEntry) × List String :=
  match dictGet cache nodeId with
  | some e => ((e.status, e.detail), cache, [])
  | Option.none =>
    let (status₀, detail) := wikiApi nodeId lang
    let (status₁, calls) :=
      if (status₀ = "NO_PAGE" || status₀ = "ERROR") && lang = "zh" then
        if baiduOk nodeId then ("BAIDU", ["wiki:" ++ nodeId, "baidu:" ++ nodeId])
        else if cdtOk nodeId then
          ("CDT", ["wiki:" ++ nodeId, "baidu:" ++ nodeId, "cdt:" ++ nodeId])
        else (status₀, ["wiki:" ++ nodeId, "baidu:" ++ nodeId, "cdt:" ++ nodeId])
      else (status₀, ["wiki:" ++ nodeId])
    let cache' :=
      if status₁ = "NO_PAGE" || status₁ = "ERROR" then cache
      else dictSet cache nodeId ⟨status₁, detail, nowIso⟩
    ((status₁, detail), cache', calls)

/-! ## LLM service (`scripts/services/llm_service.py`)

`LLMService.merge_items` (and the identical `GraphMerger._call_llm_for_merge`)
strip the identity fields from both items before building the prompt, then
recombine the LLM's parsed JSON object with the existing item via
`dict.update`. The LLM reply is a parameter: `some d` is a successfully
parsed JSON object, `none` covers an empty/unparsable response or an API
error, in which case the original item is returned. -/

/-- `keys_to_remove = {'id', 'name', 'source', 'target'}`. -/
def identityKeys : List String := ["id", "name", "source", "target"]

/-- The dict comprehension `{k: v for k, v in item.items() if k not in
keys_to_remove}` applied before prompting the LLM. -/
def stripIdentityKeys (item : Dict) : Dict :=
  item.filter (fun p => !identityKeys.contains p.1)

/-- The two JSON objects embedded in the merge prompt: what the LLM sees. -/
def mergeItemsPayload (existingItem newItem : Dict) : Dict × Dict :=
  (stripIdentityKeys existingItem, stripIdentityKeys newItem)

/-- `LLMService.merge_items`: `final_item = existing_item.copy();
final_item.update(merged_props)` on success, `existing_item` on failure. -/
def mergeItems (existingItem newItem : Dict) (llmReply : Option Dict) : Dict :=
  match llmReply with
  | some reply =>
    let _payload := mergeItemsPayload existingItem newItem
    dictUpdate existingItem reply
  | Option.none => existingItem

/-! ## Graph merger (`scripts/merge_graphs.py`)

`GraphMerger._process_single_file`, split into its per-node step (lines
239–356) and per-relationship step (lines 359–386). The wiki lookups and
the two LLM calls are oracles; `callMergeLLM existing new = none` models the
decorator's `None` on daily-quota exhaustion (filtered by `if merged:` in
the caller), and `some m` the dict returned by `_call_llm_for_merge`. -/

/-- `NON_DIRECTED_LINK_TYPES` from `scripts/config.py`. -/
def NON_DIRECTED_LINK_TYPES : List String :=
  ["SPOUSE_OF", "SIBLING_OF", "LOVER_OF", "RELATIVE_OF",
   "FRIEND_OF", "ENEMY_OF", "MET_WITH"]

/-- The canonical key of a relationship: a source/target pair and a type. -/
abbrev RelKey := (String × String) × String

/-- Lookup in the relationship index (a dict keyed by canonical keys). -/
def relsGet (m : List (RelKey × Dict)) (k : RelKey) : Option Dict :=
  match m with
  | [] => Option.none
  | (k', v) :: rest => if k' = k then some v else relsGet rest k

/-- Assignment in the relationship index, with Python dict semantics. -/
def relsSet (m : List (RelKey × Dict)) (k : RelKey) (v : Dict) : List (RelKey × Dict) :=
  match m with
  | [] => [(k, v)]
  | (k', v') :: rest =>
    if k' = k then (k', v) :: rest else (k', v') :: relsSet rest k v

/-- `GraphMerger._get_canonical_rel_key`: `None` unless `source` and `target`
are strings and `type` is a truthy string; undirected types get the sorted
pair, directed types the pair as-is. (A non-string truthy `type` is not
modelled; the pipeline only produces string types.) -/
def getCanonicalRelKey (rel : Dict) : Option RelKey :=
  match dictGet rel "source", dictGet rel "target", dictGet rel "type" with
  | some (.str s), some (.str t), some (.str ty) =>
    if ty = "" then Option.none
    else if NON_DIRECTED_LINK_TYPES.contains ty then some (sortPair s t, ty)
    else some ((s, t), ty)
  | _, _, _ => Option.none

/-- A multilingual name object (`lang → ordered name list`), with non-string
entries dropped at the boundary (the pipeline only stores string names). -/
abbrev NameObj := List (String × List String)

/-- The string elements of a `PVal` list. -/
def namesOfPVal : PVal → List String
  | .list l => l.filterMap (fun v => match v with | .str s => some s | _ => Option.none)
  | _ => []

/-- `node.get('name', {})` as a `NameObj`. -/
def nameObjOf (node : Dict) : NameObj :=
  match dictGet node "name" with
  | some (.dict d) => d.map (fun p => (p.1, namesOfPVal p.2))
  | _ => []

/-- A `NameObj` stored back into a node as a `PVal`. -/
def pvalOfNameObj (n : NameObj) : PVal :=
  .dict (n.map (fun p => (p.1, .list (p.2.map .str))))

/-- `map.setdefault`-like update used at the end of
`_merge_and_update_names`: add `name → qcode` only when `name` is absent. -/
def mapAddIfAbsent (m : List (String × String)) (name qcode : String) :
    List (String × String) :=
  if dictHas m name then m else m ++ [(name, qcode)]

/-- One language of `GraphMerger._merge_and_update_names`: pick the
canonical name (override on the primary language, else the existing first
name, else the new first name), then `[canonical] + sorted(aliases)`. -/
def mergeNamesForLang (existingNames newNames : List String)
    (isPrimary : Bool) (override : Option String) (wasInExisting : Bool) :
    Option (List String) :=
  let canonical₀ : Option String :=
    match (if isPrimary then override else Option.none) with
    | some c =>
      if c = "" then
        match existingNames with
        | e :: _ => some e
        | [] => newNames.head?
      else some c
    | Option.none =>
      match existingNames with
      | e :: _ => some e
      | [] => newNames.head?
  let canonical : Option String :=
    match canonical₀ with
    | some c => if c = "" then Option.none else some c
    | Option.none => Option.none
  let allNames := dedupKeepOrder (existingNames ++ newNames)
  match canonical with
  | some c => some (c :: sortStrings (allNames.filter (fun x => x ≠ c)))
  | Option.none =>
    if allNames.isEmpty then (if wasInExisting then some [] else Option.none)
    else some (sortStrings allNames)

/-- `GraphMerger._merge_and_update_names`. Returns the merged name object
and the updated global name→Q-code map. The iteration order over the
language set is modelled as: existing languages first (in order), then new
languages not already present (Python iterates a `set`, whose order is
unspecified; the per-language content does not depend on it). -/
def mergeAndUpdateNames (newNode : Dict) (qcode : String)
    (existingNode : Option Dict) (override : Option String)
    (primaryLang : Option String) (nameMap : List (String × String)) :
    NameObj × List (String × String) :=
  let existingObj : NameObj :=
    match existingNode with
    | some n => nameObjOf n
    | Option.none => []
  let newObj : NameObj := nameObjOf newNode
  let allLangs : List String :=
    (existingObj.map Prod.fst) ++
      ((newObj.map Prod.fst).filter (fun l => !(existingObj.map Prod.fst).contains l))
  let merged : NameObj := allLangs.filterMap (fun lang =>
    let existingNames := (dictGet existingObj lang).getD []
    let newNames := (dictGet newObj lang).getD []
    let isPrimary := primaryLang = some lang
    (mergeNamesForLang existingNames newNames isPrimary override
      (dictHas existingObj lang)).map (fun l => (lang, l)))
  let nameMap' := merged.foldl
    (fun m p => p.2.foldl (fun m' name => mapAddIfAbsent m' name qcode) m) nameMap
  (merged, nameMap')

/-- The Merger's external effects: `check_link_status`, `get_qcode` (both
taking the name and the api language), OpenCC's `t2s` conversion, the Gemma
merge-precheck (`_should_trigger_merge_llm`, whose decorator already folds
quota exhaustion into `true`), and the Flash merge call
(`_call_llm_for_merge`, `none` modelling the decorator's quota `None`). -/
structure MergerOracles where
  linkStatus : String → String → String × Option String
  getQcode : String → String → Option String
  t2s : String → String
  shouldTriggerMerge : Dict → Dict → Bool
  callMergeLLM : Dict → Dict → Option Dict

/-- The Merger's mutable state during `_process_single_file`: the global
name→Q-code map, the master node map (`id → node`), the fragment-local
name→final-id map, and the titles appended to `LIST.md` so far. -/
structure MergerState where
  nameToQcode : List (String × String)
  masterNodes : List (String × Dict)
  localMap : List (String × String)
  titlesAdded : List String

/-- What happened to one fragment node in the node loop of
`_process_single_file`. -/
inductive NodeOutcome where
  | skipped
  | droppedRedirect (status : String) (detail : Option String)
  | mergedExisting (q : String)
  | createdNew (q : String)
  | tempCreated (id : String)
  | droppedNotFound (status : String)
  | errorAbort
  deriving Repr

/-- The `(lang) title` formatting used by `add_title_to_list` callers. -/
def formatTitle (apiLang title : String) : String :=
  if apiLang = "zh" then title else "(" ++ apiLang ++ ") " ++ title

/-- The shared merge flow of Case 1 / Case 2a: update the existing node's
names, then run the LLM precheck and merge, filtering falsy merge results
(`if merged_node_props:`). Returns the updated node and name map. -/
def mergeIntoExisting (o : MergerOracles) (newNode existingNode : Dict)
    (qcode : String) (override : Option String) (primaryLang : String)
    (nameMap : List (String × String)) : Dict × List (String × String) :=
  let (finalNameObj, nameMap') :=
    mergeAndUpdateNames newNode qcode (some existingNode) override
      (some primaryLang) nameMap
  let existing₁ := dictSet existingNode "name" (pvalOfNameObj finalNameObj)
  let existing₂ :=
    if o.shouldTriggerMerge existing₁ newNode then
      match o.callMergeLLM existing₁ newNode with
      | some m => if m.isEmpty then existing₁ else dictUpdate existing₁ m
      | Option.none => existing₁
    else existing₁
  (existing₂, nameMap')

/-- One iteration of the node loop of `GraphMerger._process_single_file`
(lines 239–356). Nodes with malformed `name` values (non-dict, or a
first name that is not a string) are reported as `skipped`; a name already
mapped to a Q-code that is missing from the master node map would raise a
`KeyError` in Python and is reported as `errorAbort`. -/
def processNode (o : MergerOracles) (st : MergerState) (newNode : Dict) :
    MergerState × NodeOutcome :=
  let nameObj : List (String × PVal) :=
    match dictGet newNode "name" with
    | some (.dict d) => d
    | _ => []
  match nameObj with
  | [] => (st, .skipped)
  | (primaryLang, primaryVal) :: _ =>
    let primaryName? : Option String :=
      match primaryVal with
      | .list (.str s :: _) => if s = "" then Option.none else some s
      | _ => Option.none
    match primaryName? with
    | Option.none => (st, .skipped)
    | some primaryName =>
      match dictGet st.nameToQcode primaryName with
      | some qcode =>
        -- Case 1: the primary name is already known globally.
        match dictGet st.masterNodes qcode with
        | Option.none => (st, .errorAbort)
        | some existingNode =>
          let (existing₂, nameMap') :=
            mergeIntoExisting o newNode existingNode qcode Option.none
              primaryLang st.nameToQcode
          ({ st with
              nameToQcode := nameMap'
              masterNodes := dictSet st.masterNodes qcode existing₂ },
            .mergedExisting qcode)
      | Option.none =>
        -- Case 2: a new primary name.
        let apiLang := if containsSub primaryLang "zh" then "zh" else primaryLang
        let (status, detail) := o.linkStatus primaryName apiLang
        if status = "REDIRECT" || status = "DISAMBIG" then
          (st, .droppedRedirect status detail)
        else
          match o.getQcode primaryName apiLang with
          | some qcode =>
            let override : Option String :=
              if status = "SIMP_TRAD_REDIRECT" then
                match detail with
                | some d =>
                  if d = "" then Option.none
                  else
                    let rt := if apiLang = "zh" then o.t2s d else d
                    if rt = "" then Option.none else some rt
                | Option.none => Option.none
              else Option.none
            let titles₁ :=
              match override with
              | some rt => st.titlesAdded ++ [formatTitle apiLang rt]
              | Option.none => st.titlesAdded
            match dictGet st.masterNodes qcode with
            | some existingNode =>
              -- Case 2a: the Q-code resolves to an existing entity.
              let (existing₂, nameMap') :=
                mergeIntoExisting o newNode existingNode qcode override
                  primaryLang st.nameToQcode
              ({ nameToQcode := nameMap'
                 masterNodes := dictSet st.masterNodes qcode existing₂
                 localMap := dictSet st.localMap primaryName qcode
                 titlesAdded := titles₁ },
                .mergedExisting qcode)
            | Option.none =>
              -- Case 2b: a brand-new node.
              let titles₂ :=
                if status = "OK" then titles₁ ++ [formatTitle apiLang primaryName]
                else titles₁
              let (finalNameObj, nameMap') :=
                mergeAndUpdateNames newNode qcode Option.none override
                  (some primaryLang) st.nameToQcode
              let node' :=
                dictSet (dictSet newNode "id" (.str qcode)) "name"
                  (pvalOfNameObj finalNameObj)
              ({ nameToQcode := nameMap'
                 masterNodes := dictSet st.masterNodes qcode node'
                 localMap := dictSet st.localMap primaryName qcode
                 titlesAdded := titles₂ },
                .createdNew qcode)
          | Option.none =>
            -- Scenario B: no Q-code anywhere.
            let tempId? : Option String :=
              if status = "BAIDU" then some ("BAIDU:" ++ primaryName)
              else if status = "CDT" then some ("CDT:" ++ primaryName)
              else Option.none
            match tempId? with
            | some tempId =>
              let dedupedName : PVal :=
                .dict (nameObj.map (fun p =>
                  (p.1, .list ((dedupKeepOrder (namesOfPVal p.2)).map .str))))
              let node' :=
                dictSet (dictSet newNode "id" (.str tempId)) "name" dedupedName
              ({ st with
                  masterNodes := dictSet st.masterNodes tempId node'
                  localMap := dictSet st.localMap primaryName tempId },
                .tempCreated tempId)
            | Option.none => (st, .droppedNotFound status)

/-- `local_map.get(name) or name_to_qcode.get(name)`: Python `or`, so a
falsy (empty) local result falls through to the global map. -/
def resolveName (localMap nameMap : List (String × String)) (name : String) :
    Option String :=
  match dictGet localMap name with
  | some v => if v = "" then dictGet nameMap name else some v
  | Option.none => dictGet nameMap name

/-- One iteration of the relationship loop of
`GraphMerger._process_single_file` (lines 359–386). -/
def processRel (o : MergerOracles) (localMap nameMap : List (String × String))
    (relsMap : List (RelKey × Dict)) (newRel : Dict) : List (RelKey × Dict) :=
  let sourceName? :=
    match dictGet newRel "source" with | some (.str s) => some s | _ => Option.none
  let targetName? :=
    match dictGet newRel "target" with | some (.str s) => some s | _ => Option.none
  let sourceId? := sourceName?.bind (resolveName localMap nameMap)
  let targetId? := targetName?.bind (resolveName localMap nameMap)
  match sourceId?, targetId? with
  | some sourceId, some targetId =>
    if sourceId = "" || targetId = "" then relsMap
    else
      let rel' :=
        dictSet (dictSet newRel "source" (.str sourceId)) "target" (.str targetId)
      match getCanonicalRelKey rel' with
      | Option.none => relsMap
      | some relKey =>
        match relsGet relsMap relKey with
        | some existingRel =>
          if o.shouldTriggerMerge existingRel rel' then
            match o.callMergeLLM existingRel rel' with
            | some merged =>
              if merged.isEmpty then relsMap else relsSet relsMap relKey merged
            | Option.none => relsMap
          else relsMap
        | Option.none => relsSet relsMap relKey rel'
  | _, _ => relsMap

/-- The whole relationship loop. -/
def processRels (o : MergerOracles) (localMap nameMap : List (String × String))
    (relsMap : List (RelKey × Dict)) (newRels : List Dict) : List (RelKey × Dict) :=
  newRels.foldl (processRel o localMap nameMap) relsMap

/-! ## Graph cleaner (`scripts/clean_data.py`)

`GraphCleaner._validate_and_clean_schema` (nodes, then relationships) and
`GraphCleaner._resolve_temporary_nodes`. -/

/-- `VALID_NODE_TYPES` from `_validate_and_clean_schema`. -/
def VALID_NODE_TYPES : List String :=
  ["Person", "Organization", "Movement", "Event", "Location", "Document"]

/-- One entry of `RELATIONSHIP_TYPE_RULES`: optional allowed source and
target node-type lists (`'source' in rule` guards the check). -/
structure RelRule where
  src : Option (List String)
  tgt : Option (List String)
  deriving Repr

/-- `RELATIONSHIP_TYPE_RULES` from `scripts/config.py`. -/
def RELATIONSHIP_TYPE_RULES : List (String × RelRule) :=
  [("SPOUSE_OF",      ⟨some ["Person"], some ["Person"]⟩),
   ("CHILD_OF",       ⟨some ["Person"], some ["Person"]⟩),
   ("SIBLING_OF",     ⟨some ["Person"], some ["Person"]⟩),
   ("LOVER_OF",       ⟨some ["Person"], some ["Person"]⟩),
   ("RELATIVE_OF",    ⟨some ["Person"], some ["Person"]⟩),
   ("MET_WITH",       ⟨some ["Person"], some ["Person"]⟩),
   ("BORN_IN",        ⟨some ["Person"], some ["Location"]⟩),
   ("ALUMNUS_OF",     ⟨some ["Person"], some ["Organization"]⟩),
   ("MEMBER_OF",      ⟨some ["Person", "Organization"], some ["Organization"]⟩),
   ("SUBORDINATE_OF", ⟨some ["Person", "Organization"],
                       some ["Person", "Organization"]⟩),
   ("FRIEND_OF",      ⟨some ["Person", "Organization"],
                       some ["Person", "Organization"]⟩),
   ("ENEMY_OF",       ⟨some ["Person", "Organization"],
                       some ["Person", "Organization"]⟩),
   ("FOUNDED",        ⟨some ["Person", "Organization"],
                       some ["Organization", "Movement"]⟩),
   ("PUSHED",         ⟨some ["Person", "Organization", "Event", "Movement", "Document"],
                       some ["Person", "Organization", "Event", "Movement", "Document"]⟩),
   ("BLOCKED",        ⟨some ["Person", "Organization", "Event", "Movement", "Document"],
                       some ["Person", "Organization", "Event", "Movement", "Document"]⟩),
   ("INFLUENCED",     ⟨some ["Person", "Organization", "Event", "Movement", "Document"],
                       some ["Person", "Organization", "Event", "Movement", "Document",
                             "Location"]⟩)]

/-- Is the value a string? -/
def isStr : PVal → Bool
  | .str _ => true
  | _ => false

/-- `isinstance(v, str) or (isinstance(v, list) and all(isinstance(i, str)
for i in v))`. -/
def strOrStrList : PVal → Bool
  | .str _ => true
  | .list l => l.all isStr
  | _ => false

/-- `isinstance(v, list) and all(isinstance(n, str) for n in v)`. -/
def isStrList : PVal → Bool
  | .list l => l.all isStr
  | _ => false

/-- `if k in props and not ok(props[k]): del props[k]`. -/
def dropKeyUnless (props : Dict) (k : String) (ok : PVal → Bool) : Dict :=
  match dictGet props k with
  | some v => if ok v then props else dictErase props k
  | Option.none => props

/-- The map-of-strings cleanup used for `location`/`birth_place`/
`death_place`/`description` (nodes) and `position`/`degree`/`description`
(relationships): keep the key if the value is a dict, dropping its
non-string entries; delete the key for any non-dict value. -/
def cleanDictValued (props : Dict) (k : String) : Dict :=
  match dictGet props k with
  | some (.dict d) => dictSet props k (.dict (d.filter (fun p => isStr p.2)))
  | some _ => dictErase props k
  | Option.none => props

/-- Line 122–123 of `_validate_and_clean_schema`: `if 'gender' in props and
props['gender'] not in ['Male', 'Female']: del props['gender']`. -/
def checkGenderValue (props : Dict) : Dict :=
  match dictGet props "gender" with
  | some (.str s) => if s = "Male" || s = "Female" then props else dictErase props "gender"
  | some _ => dictErase props "gender"
  | Option.none => props

/-- The node-properties cleanup of `_validate_and_clean_schema` (lines
111–130), in source order. Note that it never consults the node's type. -/
def cleanNodeProps (props : Dict) : Dict :=
  let p₁ := dropKeyUnless props "period" strOrStrList
  let p₂ := dropKeyUnless p₁ "lifetime" isStr
  let p₃ := dropKeyUnless p₂ "gender" isStr
  ["location", "birth_place", "death_place", "description"].foldl cleanDictValued
    (checkGenderValue p₃)

/-- The relationship-properties cleanup (lines 165–179). -/
def cleanRelProps (props : Dict) : Dict :=
  let p₁ := dropKeyUnless props "start_date" strOrStrList
  let p₂ := dropKeyUnless p₁ "end_date" strOrStrList
  ["position", "degree", "description"].foldl cleanDictValued p₂

/-- The top-level keys a node may keep. -/
def allowedNodeKeys : List String := ["id", "type", "name", "properties"]

/-- The top-level keys a relationship may keep. -/
def allowedRelKeys : List String := ["source", "target", "type", "properties"]

/-- Lines 103–109 of `_validate_and_clean_schema`: a non-dict `name` is
deleted; a dict `name` keeps only its list-of-strings languages. -/
def cleanNameField (n : Dict) : Dict :=
  match dictGet n "name" with
  | some (.dict nd) => dictSet n "name" (.dict (nd.filter (fun p => isStrList p.2)))
  | some _ => dictErase n "name"
  | Option.none => n

/-- Lines 111–130 of `_validate_and_clean_schema`: a non-dict `properties`
is deleted; a dict `properties` is put through `cleanNodeProps`. -/
def cleanPropsField (n : Dict) : Dict :=
  match dictGet n "properties" with
  | some (.dict pd) => dictSet n "properties" (.dict (cleanNodeProps pd))
  | some _ => dictErase n "properties"
  | Option.none => n

/-- The per-node step of `_validate_and_clean_schema`: validity check, key
filtering, name cleanup, properties cleanup. Returns the cleaned node with
its id and type, or `none` when the node is deleted. -/
def cleanNode (v : PVal) : Option (Dict × String × String) :=
  match v with
  | .dict node =>
    match dictGet node "id", dictGet node "type" with
    | some (.str nid), some (.str nty) =>
      if nid = "" || !VALID_NODE_TYPES.contains nty then Option.none
      else
        some (cleanPropsField (cleanNameField
          (dictFilterKeys node (fun k => allowedNodeKeys.contains k))), nid, nty)
    | _, _ => Option.none
  | _ => Option.none

/-- The node pass: cleaned nodes, the `valid_node_ids` set, and the
`node_id_to_type_map`. -/
def cleanNodes (nodes : List PVal) : List Dict × List String × List (String × String) :=
  nodes.foldl
    (fun acc v =>
      match cleanNode v with
      | some (n, nid, nty) => (acc.1 ++ [n], acc.2.1 ++ [nid], dictSet acc.2.2 nid nty)
      | Option.none => acc)
    ([], [], [])

/-- Lines 165–179 of `_validate_and_clean_schema`: a non-dict relationship
`properties` is deleted; a dict one is put through `cleanRelProps`. -/
def cleanRelPropsField (r : Dict) : Dict :=
  match dictGet r "properties" with
  | some (.dict pd) => dictSet r "properties" (.dict (cleanRelProps pd))
  | some _ => dictErase r "properties"
  | Option.none => r

/-- The per-relationship step of `_validate_and_clean_schema` (lines
143–181): source/target/type must be truthy strings, endpoints must be valid
node ids, the type must have a rule, the endpoint node types must satisfy
it; then key filtering and properties cleanup. -/
def cleanRel (validIds : List String) (typeMap : List (String × String))
    (v : PVal) : Option Dict :=
  match v with
  | .dict rel =>
    match dictGet rel "source", dictGet rel "target", dictGet rel "type" with
    | some (.str s), some (.str t), some (.str ty) =>
      if s = "" || t = "" || ty = "" then Option.none
      else if !(validIds.contains s && validIds.contains t) then Option.none
      else
        match dictGet RELATIONSHIP_TYPE_RULES ty with
        | Option.none => Option.none
        | some rule =>
          let sty := (dictGet typeMap s).getD ""
          let tty := (dictGet typeMap t).getD ""
          let srcBad := match rule.src with | some l => !l.contains sty | Option.none => false
          let tgtBad := match rule.tgt with | some l => !l.contains tty | Option.none => false
          if srcBad || tgtBad then Option.none
          else
            some (cleanRelPropsField
              (dictFilterKeys rel (fun k => allowedRelKeys.contains k)))
    | _, _, _ => Option.none
  | _ => Option.none

/-- `GraphCleaner._validate_and_clean_schema`. -/
def validateAndCleanSchema (nodes rels : List PVal) : List Dict × List Dict :=
  let (cnodes, validIds, typeMap) := cleanNodes nodes
  (cnodes, rels.filterMap (cleanRel validIds typeMap))

/-! ### Temp-ID upgrade (`GraphCleaner._resolve_temporary_nodes`)

Python mutates node objects shared between the `nodes` list and the
`nodes_map`; the embedding keeps the nodes in a positional `store` and lets
`nodes_map` hold indices, so object identity (`is not`) becomes index
inequality. -/

/-- The id of a node object (the pipeline guarantees a string id here). -/
def nodeId (n : Dict) : String :=
  match dictGet n "id" with
  | some (.str s) => s
  | _ => ""

/-- The mutable state of `_resolve_temporary_nodes`. -/
structure TempState where
  store : List Dict
  nodesMap : List (String × Nat)
  idRemap : List (String × String)
  toDelete : List String

/-- Add to the `nodes_to_delete` set. -/
def addToDelete (l : List String) (x : String) : List String :=
  if l.contains x then l else l ++ [x]

/-- The value stored for one temp-property key (lines 318–321): when both
the existing value and the incoming value are dicts, the incoming one is
`update`d into the existing one; otherwise the incoming value replaces. -/
def overlayValue (existingVal : Option PVal) (newVal : PVal) : PVal :=
  match existingVal, newVal with
  | some (.dict ed), .dict vd => .dict (dictUpdate ed vd)
  | _, _ => newVal

/-- One key of the temp-property overlay. -/
def tempOverlayStep (ep : Dict) (kv : String × PVal) : Dict :=
  dictSet ep kv.1 (overlayValue (dictGet ep kv.1) kv.2)

/-- Lines 316–321 of `_resolve_temporary_nodes`: overlay the temp node's
properties onto the existing node's, merging key-wise when both values are
dicts and replacing otherwise. -/
def mergeTempProps (ep tp : Dict) : Dict :=
  tp.foldl tempOverlayStep ep

/-- One iteration of the loop of `_resolve_temporary_nodes` (lines 302–324)
for the temp node at index `i`. `getQ` is `get_qcode` restricted to its
first component (the code discards `final_title`). -/
def resolveTempStep (getQ : String → Option String) (s : TempState) (i : Nat) :
    TempState :=
  match s.store.get? i with
  | Option.none => s
  | some node =>
    let oldId := nodeId node
    let originalName := afterFirstColon oldId
    match getQ originalName with
    | some qcode =>
      if qcode = "" then s
      else
        let s₁ : TempState :=
          { s with
              idRemap := dictSet s.idRemap oldId qcode
              toDelete := addToDelete s.toDelete oldId }
        let rename : TempState :=
          { s₁ with
              store := s₁.store.set i (dictSet node "id" (.str qcode))
              nodesMap := dictSet s₁.nodesMap qcode i }
        match dictGet s₁.nodesMap qcode with
        | some j =>
          if j = i then rename
          else
            let existing := (s₁.store.get? j).getD []
            let tempProps :=
              match dictGet node "properties" with
              | some (.dict p) => p
              | _ => []
            if tempProps.isEmpty then s₁
            else
              let existingProps :=
                match dictGet existing "properties" with
                | some (.dict p) => p
                | _ => []
              let existing' := dictSet existing "properties"
                (.dict (mergeTempProps existingProps tempProps))
              { s₁ with store := s₁.store.set j existing' }
        | Option.none => rename
    | Option.none => s

/-- Apply `id_remap` to one endpoint key of a relationship. -/
def remapEndpoint (idRemap : List (String × String)) (rel : Dict) (k : String) : Dict :=
  match dictGet rel k with
  | some (.str s) =>
    match dictGet idRemap s with
    | some q => dictSet rel k (.str q)
    | Option.none => rel
  | _ => rel

/-- The loop of `_resolve_temporary_nodes`: fold `resolveTempStep` over the
indices of the nodes whose (initial) ids carry a temporary prefix, starting
from the freshly built `nodes_map`. -/
def finalTempState (getQ : String → Option String) (nodes : List Dict) : TempState :=
  let initMap : List (String × Nat) :=
    (nodes.enum.foldl (fun m p => dictSet m (nodeId p.2) p.1) [])
  let tempIdxs : List Nat :=
    (List.range nodes.length).filter (fun i =>
      let nid := nodeId ((nodes.get? i).getD [])
      startsWithB nid "BAIDU:" || startsWithB nid "CDT:")
  tempIdxs.foldl (resolveTempStep getQ)
    { store := nodes, nodesMap := initMap, idRemap := [], toDelete := [] }

/-- `GraphCleaner._resolve_temporary_nodes`: upgrade every `BAIDU:`/`CDT:`
node whose original name now resolves to a Q-code, drop upgraded temp
nodes whose id did not change, and remap relationship endpoints through
`id_remap`. -/
def resolveTemporaryNodes (getQ : String → Option String)
    (nodes : List Dict) (rels : List Dict) : List Dict × List Dict :=
  let fin := finalTempState getQ nodes
  let finalNodes := fin.store.filter (fun n => !fin.toDelete.contains (nodeId n))
  let finalRels := rels.map (fun r =>
    remapEndpoint fin.idRemap (remapEndpoint fin.idRemap r "source") "target")
  (finalNodes, finalRels)

/-- A concrete model of OpenCC's `t2s` on the characters appearing in this
development's inputs: the traditional 華 becomes the simplified 华,
everything else is unchanged. -/
def t2sDemo (s : String) : String :=
  String.mk (s.data.map (fun c => if c = '華' then '华' else c))

/-- The comparison as the claim words it (modelled from the spec for the
refinement comparison): *both* sides put through simplified-Chinese
conversion together with underscore/space and case normalization. -/
def claimBothSidesSimpCond (t2s : String → String) (title target : String) : Bool :=
  pyLower (replaceUnderscore (t2s target)) == pyLower (replaceUnderscore (t2s title))

/-! ## Basic dict lemmas -/

@[simp] theorem dictGet_nil (k : String) : dictGet ([] : List (String × α)) k = Option.none := rfl

theorem dictGet_dictSet_self (d : List (String × α)) (k : String) (v : α) :
    dictGet (dictSet d k v) k = some v := by
  induction d with
  | nil => simp [dictSet, dictGet]
  | cons p rest ih =>
    obtain ⟨k', v'⟩ := p
    by_cases h : k' = k <;> simp [dictSet, dictGet, h, ih]

theorem dictGet_dictSet_ne (d : List (String × α)) (k k' : String) (v : α) (h : k ≠ k') :
    dictGet (dictSet d k v) k' = dictGet d k' := by
  induction d with
  | nil => simp [dictSet, dictGet, h]
  | cons p rest ih =>
    obtain ⟨k₀, v₀⟩ := p
    by_cases hk : k₀ = k
    · subst hk
      simp [dictSet, dictGet, h]
    · simp [dictSet, dictGet, hk, ih]

theorem dictGet_dictUpdate_of_not_mem (base upd : List (String × α)) (k : String)
    (h : dictHas upd k = false) : dictGet (dictUpdate base upd) k = dictGet base k := by
  induction upd generalizing base with
  | nil => simp [dictUpdate]
  | cons p rest ih =>
    obtain ⟨k₀, v₀⟩ := p
    simp only [dictHas, Bool.or_eq_false_iff, decide_eq_false_iff_not] at h
    have step : dictUpdate base ((k₀, v₀) :: rest) = dictUpdate (dictSet base k₀ v₀) rest := rfl
    rw [step, ih _ h.2, dictGet_dictSet_ne _ _ _ _ (fun hk => h.1 hk)]

/-! ## Claim C4 — daily-quota fallbacks -/

/-- **C4** (code bug). The claim (and the spec) say that on daily-quota
exhaustion the merge-check `should_merge` returns `True` and the
relation-cleaner call returns `[]`. The dispatch in
`APIRateLimiter.limit` matches on the substrings `"merge_llm"` and
`"cleaner_llm"` of the wrapped function's name; neither occurs in
`should_merge` or `is_relation_deletable`, so both callers receive `None`
(without the wrapped function being invoked — the result is independent of
it). Only `GraphMerger._should_trigger_merge_llm` still matches and gets
`True`. -/
theorem c4_quota_fallback_mismatch :
    (∀ f : Unit → PyRet,
      limitedCall "should_merge" (some gemmaRpdLimit) gemmaRpdLimit f = PyRet.pyNone) ∧
    (∀ f : Unit → PyRet,
      limitedCall "is_relation_deletable" (some gemmaFlashLiteRpdLimit)
        gemmaFlashLiteRpdLimit f = PyRet.pyNone) ∧
    quotaFallback "_should_trigger_merge_llm" = PyRet.pyBool true :=
  ⟨fun _ => rfl, fun _ => rfl, rfl⟩

/-! ## Claim C10 — link-status cache hits -/

/-- **C10** (confirmed). For a title present in the link-status cache,
`check_link_status` returns the cached status and detail, leaves the cache
untouched, performs no wiki or fallback request (the call log is empty and
the result does not depend on any of the request oracles), and ignores the
`lang` argument — the cache key is the title alone. -/
theorem c10_cached_link_status
    (wikiApi wikiApi' : String → String → String × Option String)
    (baiduOk baiduOk' cdtOk cdtOk' : String → Bool) (nowIso nowIso' : String)
    (cache : List (String × LinkEntry)) (title lang lang' : String) (e : LinkEntry)
    (h : dictGet cache title = some e) :
    checkLinkStatus wikiApi baiduOk cdtOk nowIso cache title lang
        = ((e.status, e.detail), cache, []) ∧
    checkLinkStatus wikiApi baiduOk cdtOk nowIso cache title lang
        = checkLinkStatus wikiApi' baiduOk' cdtOk' nowIso' cache title lang' := by
  constructor <;> simp [checkLinkStatus, h]

/-- Witness for C10 at a concrete cache. -/
theorem c10_cached_link_status_witness :
    checkLinkStatus (fun _ _ => ("OK", Option.none)) (fun _ => true) (fun _ => true)
        "2025-01-01" [("邓小平", ⟨"OK", some "detail", "ts"⟩)] "邓小平" "en"
      = (("OK", some "detail"), [("邓小平", ⟨"OK", some "detail", "ts"⟩)], []) :=
  (c10_cached_link_status (fun _ _ => ("OK", Option.none)) (fun _ _ => ("ERR", Option.none))
    (fun _ => true) (fun _ => false) (fun _ => true) (fun _ => false)
    "2025-01-01" "x" [("邓小平", ⟨"OK", some "detail", "ts"⟩)] "邓小平" "en" "zh"
    ⟨"OK", some "detail", "ts"⟩ rfl).1

/-! ## Claim C9 — shouldProcess gating -/

/-- **C9** (confirmed). `_should_process_item` returns `True` for items with
no local fragment; returns `False` without any wiki call when the newest
local fragment is at most `PROB_START_DAY` days old; fetches the wiki
latest-revision time only for older items; and returns `False` when that
revision time is not later than the local fragment time. -/
theorem c9_should_process_gating (now t w : Int) (lastLocal : Option Int)
    (wikiTime : Unit → Option Int) (rand : ℚ) :
    (shouldProcessItem now Option.none wikiTime rand = (true, false)) ∧
    (timedeltaDays (now - t) ≤ PROB_START_DAY →
      shouldProcessItem now (some t) wikiTime rand = (false, false)) ∧
    ((shouldProcessItem now lastLocal wikiTime rand).2 = true →
      ∃ t₀, lastLocal = some t₀ ∧ PROB_START_DAY < timedeltaDays (now - t₀)) ∧
    (PROB_START_DAY < timedeltaDays (now - t) → wikiTime () = some w → w ≤ t →
      shouldProcessItem now (some t) wikiTime rand = (false, true)) := by
  refine ⟨rfl, ?_, ?_, ?_⟩
  · intro h
    simp [shouldProcessItem, h]
  · intro h
    match hl : lastLocal with
    | Option.none => simp [shouldProcessItem, hl] at h
    | some t₀ =>
      refine ⟨t₀, rfl, ?_⟩
      by_contra hage
      push_neg at hage
      rw [shouldProcessItem] at h
      simp only [hl] at h
      rw [if_pos hage] at h
      simp at h
  · intro hage hw hle
    rw [shouldProcessItem]
    simp only
    rw [if_neg (not_le.mpr hage), hw]
    simp [hle]

/-- Witness for C9: never-processed → yes; 3-day-old fragment → no, no wiki
call; 10-day-old fragment with an older wiki revision → no. -/
theorem c9_should_process_gating_witness :
    (shouldProcessItem 0 Option.none (fun _ => some 50) 0 = (true, false)) ∧
    (shouldProcessItem (3 * 86400) (some 0) (fun _ => some 50) 0 = (false, false)) ∧
    (shouldProcessItem (10 * 86400) (some 0) (fun _ => some (-5)) 0 = (false, true)) :=
  ⟨(c9_should_process_gating (3 * 86400) 0 50 Option.none (fun _ => some 50) 0).1,
   (c9_should_process_gating (3 * 86400) 0 50 Option.none (fun _ => some 50) 0).2.1
     (by decide),
   (c9_should_process_gating (10 * 86400) 0 (-5) Option.none (fun _ => some (-5)) 0).2.2.2
     (by decide) rfl (by decide)⟩

/-! ## Claim C2 — mergeItems and identity fields -/

/-- **C2, counterexample.** The claim says the merged result keeps the
existing item's `id` *whatever JSON the LLM returns*. But `merge_items`
recombines with `final_item.update(merged_props)`, so a reply that itself
contains an `id` key overwrites it: here the existing id `Q1` comes out as
`Q999`. -/
theorem c2_identity_overwrite_counterexample :
    dictGet (mergeItems [("id", PVal.str "Q1"), ("x", PVal.int 1)]
        [("x", PVal.int 2)] (some [("id", PVal.str "Q999")])) "id"
      = some (PVal.str "Q999") ∧ "Q999" ≠ "Q1" := ⟨rfl, by decide⟩

/-- **C2, amended** (corrected). The identity fields `id`, `name`, `source`,
`target` are removed from both items before being sent to the LLM; on an
LLM failure the existing item is returned unchanged; and the merged result
agrees with the existing item on every identity field that the LLM's JSON
reply does not itself contain. (A reply containing such a key overwrites
it — see the counterexample.) -/
theorem c2_merge_items_identity (existing newItem reply : Dict) (k : String)
    (hk : k ∈ identityKeys) (hreply : dictHas reply k = false) :
    (∀ p ∈ (mergeItemsPayload existing newItem).1, p.1 ∉ identityKeys) ∧
    (∀ p ∈ (mergeItemsPayload existing newItem).2, p.1 ∉ identityKeys) ∧
    mergeItems existing newItem Option.none = existing ∧
    dictGet (mergeItems existing newItem (some reply)) k = dictGet existing k := by
  refine ⟨?_, ?_, rfl, ?_⟩
  · intro p hp
    have := List.of_mem_filter hp
    simpa using this
  · intro p hp
    have := List.of_mem_filter hp
    simpa using this
  · have hkne : k ∈ identityKeys := hk
    show dictGet (dictUpdate existing reply) k = dictGet existing k
    exact dictGet_dictUpdate_of_not_mem existing reply k hreply

/-- Witness for C2 at `k = "id"` with a reply not mentioning identity. -/
theorem c2_merge_items_identity_witness :
    (∀ p ∈ (mergeItemsPayload [("id", PVal.str "Q1"), ("x", PVal.int 1)]
        [("x", PVal.int 2)]).1, p.1 ∉ identityKeys) ∧
    (∀ p ∈ (mergeItemsPayload [("id", PVal.str "Q1"), ("x", PVal.int 1)]
        [("x", PVal.int 2)]).2, p.1 ∉ identityKeys) ∧
    mergeItems [("id", PVal.str "Q1"), ("x", PVal.int 1)] [("x", PVal.int 2)]
        Option.none = [("id", PVal.str "Q1"), ("x", PVal.int 1)] ∧
    dictGet (mergeItems [("id", PVal.str "Q1"), ("x", PVal.int 1)]
        [("x", PVal.int 2)] (some [("x", PVal.int 3)])) "id"
      = dictGet [("id", PVal.str "Q1"), ("x", PVal.int 1)] "id" :=
  c2_merge_items_identity [("id", PVal.str "Q1"), ("x", PVal.int 1)]
    [("x", PVal.int 2)] [("x", PVal.int 3)] "id" (by simp [identityKeys]) rfl

/-! ## Claim C5 — simp/trad redirect classification -/

/-- **C5, counterexample.** For the traditional title 新華社 whose page body
redirects to the simplified 新华社, the claim's both-sides-normalized
comparison holds (so the claim predicts `SIMP_TRAD_REDIRECT`), but the code
only simplifies the *target* and compares it against the raw source title,
so it returns `REDIRECT`. -/
theorem c5_simp_trad_counterexample :
    claimBothSidesSimpCond t2sDemo "新華社" "新华社" = true ∧
    checkWikiStatusApi t2sDemo "新華社" "zh" (.body "#REDIRECT [[新华社]]")
      = ("REDIRECT", some "新华社") := ⟨rfl, rfl⟩

/-- **C5, amended** (corrected). For a zh title whose fetched raw content
starts with `#REDIRECT` or `#重定向` (case-insensitively) and contains a
`[[target]]` link, the result is `SIMP_TRAD_REDIRECT` with the parsed
target as detail exactly when the *simplified target* equals the *raw
source title* under underscore/space and case normalization — the source
side is not simplified — and `REDIRECT` with that target otherwise. -/
theorem c5_redirect_classification (t2s : String → String) (title raw : String)
    (inner : List Char)
    (hne : pyStrip raw ≠ "")
    (hred : startsWithB (pyLStrip (pyLower (pyStrip raw))) "#redirect" = true ∨
            startsWithB (pyLStrip (pyLower (pyStrip raw))) "#重定向" = true)
    (hlink : extractFirstLink (pyStrip raw).data = some inner) :
    checkWikiStatusApi t2s title "zh" (.body raw) =
      (if pyLower (replaceUnderscore (t2s (beforeHash (pyStrip (String.mk inner)))))
          = pyLower (replaceUnderscore title)
       then ("SIMP_TRAD_REDIRECT", some (beforeHash (pyStrip (String.mk inner))))
       else ("REDIRECT", some (beforeHash (pyStrip (String.mk inner))))) := by
  have hb : (startsWithB (pyLStrip (pyLower (pyStrip raw))) "#redirect" ||
      startsWithB (pyLStrip (pyLower (pyStrip raw))) "#重定向") = true := by
    rcases hred with h | h <;> simp [h]
  rw [checkWikiStatusApi]
  simp only [if_neg hne, hb, if_pos rfl, hlink]
  split <;> simp_all

/-- Witness for C5's amended theorem: a genuine simp/trad redirect
(traditional target 新華社 simplifies to the simplified source 新华社) is
classified `SIMP_TRAD_REDIRECT`. -/
theorem c5_redirect_classification_witness :
    checkWikiStatusApi t2sDemo "新华社" "zh" (.body "#重定向 [[新華社]]")
      = ("SIMP_TRAD_REDIRECT", some "新華社") := by
  have h := c5_redirect_classification t2sDemo "新华社" "#重定向 [[新華社]]"
    "新華社".data (by decide) (Or.inr rfl) rfl
  simpa using h

/-! ### Dict lemmas shared by the schema-validation claims -/

theorem dictGet_dictErase_self (d : List (String × α)) (k : String) :
    dictGet (dictErase d k) k = Option.none := by
  induction d with
  | nil => rfl
  | cons p rest ih =>
    obtain ⟨k₀, v₀⟩ := p
    by_cases h : k₀ = k
    · simp [dictErase, h, ih]
    · simp [dictErase, dictGet, h, ih]

theorem dictGet_dictErase_ne (d : List (String × α)) (k k' : String) (h : k' ≠ k) :
    dictGet (dictErase d k) k' = dictGet d k' := by
  induction d with
  | nil => rfl
  | cons p rest ih =>
    obtain ⟨k₀, v₀⟩ := p
    simp only [dictErase]
    by_cases hk : k₀ = k
    · rw [if_pos hk, ih]
      have hne : k₀ ≠ k' := by
        rw [hk]
        exact fun hh => h hh.symm
      simp [dictGet, hne]
    · rw [if_neg hk]
      by_cases hk' : k₀ = k' <;> simp [dictGet, hk', ih]

theorem dictGet_dictFilterKeys_of_keep (d : List (String × α)) (keep : String → Bool)
    (k : String) (h : keep k = true) :
    dictGet (dictFilterKeys d keep) k = dictGet d k := by
  induction d with
  | nil => rfl
  | cons p rest ih =>
    obtain ⟨k₀, v₀⟩ := p
    by_cases hk : k₀ = k
    · subst hk
      simp [dictFilterKeys, dictGet, h, ih]
    · by_cases hkeep : keep k₀ <;> simp [dictFilterKeys, dictGet, hk, hkeep, ih]

theorem dictGet_dropKeyUnless_self (props : Dict) (k : String) (ok : PVal → Bool) :
    dictGet (dropKeyUnless props k ok) k =
      (match dictGet props k with
       | some v => if ok v then some v else Option.none
       | Option.none => Option.none) := by
  cases h : dictGet props k with
  | none => simp [dropKeyUnless, h]
  | some v =>
    by_cases hok : ok v
    · simp [dropKeyUnless, h, hok]
    · simp [dropKeyUnless, h, hok, dictGet_dictErase_self]

theorem dictGet_dropKeyUnless_ne (props : Dict) (k k' : String) (ok : PVal → Bool)
    (h : k' ≠ k) :
    dictGet (dropKeyUnless props k ok) k' = dictGet props k' := by
  cases hk : dictGet props k with
  | none => simp [dropKeyUnless, hk]
  | some v =>
    by_cases hok : ok v
    · simp [dropKeyUnless, hk, hok]
    · simp [dropKeyUnless, hk, hok, dictGet_dictErase_ne _ _ _ h]

theorem dictGet_cleanDictValued_ne (props : Dict) (k k' : String) (h : k' ≠ k) :
    dictGet (cleanDictValued props k) k' = dictGet props k' := by
  have hErase := dictGet_dictErase_ne props k k' h
  have hSet : ∀ v : PVal, dictGet (dictSet props k v) k' = dictGet props k' :=
    fun v => dictGet_dictSet_ne props k k' v (fun hh => h hh.symm)
  cases hk : dictGet props k with
  | none => simp [cleanDictValued, hk]
  | some v => cases v <;> simp [cleanDictValued, hk, hErase, hSet]

theorem dictGet_cleanDictValued_self (props : Dict) (k : String) :
    dictGet (cleanDictValued props k) k =
      (match dictGet props k with
       | some (.dict d) => some (.dict (d.filter (fun p => isStr p.2)))
       | some _ => Option.none
       | Option.none => Option.none) := by
  cases hk : dictGet props k with
  | none => simp [cleanDictValued, hk]
  | some v =>
    cases v <;>
      simp [cleanDictValued, hk, dictGet_dictErase_self, dictGet_dictSet_self]

theorem dictGet_checkGenderValue_ne (props : Dict) (k' : String) (h : k' ≠ "gender") :
    dictGet (checkGenderValue props) k' = dictGet props k' := by
  have hErase := dictGet_dictErase_ne props "gender" k' h
  cases hg : dictGet props "gender" with
  | none => simp [checkGenderValue, hg]
  | some v =>
    cases v with
    | str s =>
      by_cases hs : s = "Male" || s = "Female" <;> simp [checkGenderValue, hg, hs, hErase]
    | _ => simp [checkGenderValue, hg, hErase]

theorem dictGet_checkGenderValue_self (props : Dict) :
    dictGet (checkGenderValue props) "gender" =
      (match dictGet props "gender" with
       | some (.str s) =>
         if s = "Male" || s = "Female" then some (.str s) else Option.none
       | some _ => Option.none
       | Option.none => Option.none) := by
  cases hg : dictGet props "gender" with
  | none => simp [checkGenderValue, hg]
  | some v =>
    cases v with
    | str s =>
      by_cases hs : s = "Male" || s = "Female" <;>
        simp [checkGenderValue, hg, hs, dictGet_dictErase_self]
    | _ => simp [checkGenderValue, hg, dictGet_dictErase_self]

theorem dictGet_cleanNameField_ne (n : Dict) (k : String) (h : k ≠ "name") :
    dictGet (cleanNameField n) k = dictGet n k := by
  have hErase := dictGet_dictErase_ne n "name" k h
  have hSet : ∀ v : PVal, dictGet (dictSet n "name" v) k = dictGet n k :=
    fun v => dictGet_dictSet_ne n "name" k v (fun hh => h hh.symm)
  cases hv : dictGet n "name" with
  | none => simp [cleanNameField, hv]
  | some v => cases v <;> simp [cleanNameField, hv, hErase, hSet]

theorem dictGet_cleanPropsField_ne (n : Dict) (k : String) (h : k ≠ "properties") :
    dictGet (cleanPropsField n) k = dictGet n k := by
  have hErase := dictGet_dictErase_ne n "properties" k h
  have hSet : ∀ v : PVal, dictGet (dictSet n "properties" v) k = dictGet n k :=
    fun v => dictGet_dictSet_ne n "properties" k v (fun hh => h hh.symm)
  cases hv : dictGet n "properties" with
  | none => simp [cleanPropsField, hv]
  | some v => cases v <;> simp [cleanPropsField, hv, hErase, hSet]

theorem dictGet_cleanPropsField_self (n : Dict) :
    dictGet (cleanPropsField n) "properties" =
      (match dictGet n "properties" with
       | some (.dict pd) => some (.dict (cleanNodeProps pd))
       | some _ => Option.none
       | Option.none => Option.none) := by
  cases hv : dictGet n "properties" with
  | none => simp [cleanPropsField, hv]
  | some v =>
    cases v <;>
      simp [cleanPropsField, hv, dictGet_dictErase_self, dictGet_dictSet_self]

/-! ## Claim C3 — type-forbidden node properties -/

/-- **C3, counterexample.** The claim says that after the Maintainer's
schema-validation step a `Person` node has no `period` key. But
`_validate_and_clean_schema` only validates value *shapes* and never
consults the node's type when cleaning properties: a `Person` node with a
well-shaped `period` survives the step unchanged, `period` included. -/
theorem c3_person_period_counterexample :
    (validateAndCleanSchema
      [PVal.dict [("id", PVal.str "Q1"), ("type", PVal.str "Person"),
                  ("properties", PVal.dict [("period", PVal.str "1990s")])]] []).1
      = [[("id", PVal.str "Q1"), ("type", PVal.str "Person"),
          ("properties", PVal.dict [("period", PVal.str "1990s")])]] := rfl

/-- **C3, amended** (corrected). The schema-validation step applies the same
shape-only property rules to every node type and never removes a key on
account of the type: `period` is kept iff its value is a string or list of
strings, `lifetime` iff a string, `gender` iff the string `Male`/`Female`,
`birth_place`/`death_place` iff a dict (with non-string entries dropped) —
regardless of whether the node is a `Person`. Any surviving node's
properties are exactly `cleanNodeProps` of its input properties, whatever
its (valid) type. -/
theorem c3_schema_cleanup_shape_only (props node pd n : Dict) (nid nty : String)
    (hclean : cleanNode (.dict node) = some (n, nid, nty))
    (hprops : dictGet node "properties" = some (.dict pd)) :
    dictGet (cleanNodeProps props) "period" =
      (match dictGet props "period" with
       | some v => if strOrStrList v then some v else Option.none
       | Option.none => Option.none) ∧
    dictGet (cleanNodeProps props) "lifetime" =
      (match dictGet props "lifetime" with
       | some v => if isStr v then some v else Option.none
       | Option.none => Option.none) ∧
    dictGet (cleanNodeProps props) "gender" =
      (match dictGet props "gender" with
       | some (.str s) =>
         if s = "Male" || s = "Female" then some (.str s) else Option.none
       | some _ => Option.none
       | Option.none => Option.none) ∧
    dictGet (cleanNodeProps props) "birth_place" =
      (match dictGet props "birth_place" with
       | some (.dict d) => some (.dict (d.filter (fun p => isStr p.2)))
       | some _ => Option.none
       | Option.none => Option.none) ∧
    dictGet (cleanNodeProps props) "death_place" =
      (match dictGet props "death_place" with
       | some (.dict d) => some (.dict (d.filter (fun p => isStr p.2)))
       | some _ => Option.none
       | Option.none => Option.none) ∧
    dictGet n "properties" = some (.dict (cleanNodeProps pd)) := by
  have hfold : ∀ q : Dict, cleanNodeProps q =
      cleanDictValued (cleanDictValued (cleanDictValued (cleanDictValued
        (checkGenderValue (dropKeyUnless (dropKeyUnless
          (dropKeyUnless q "period" strOrStrList) "lifetime" isStr) "gender" isStr))
        "location") "birth_place") "death_place") "description" :=
    fun q => rfl
  refine ⟨?_, ?_, ?_, ?_, ?_, ?_⟩
  · rw [hfold,
      dictGet_cleanDictValued_ne _ "description" "period" (by decide),
      dictGet_cleanDictValued_ne _ "death_place" "period" (by decide),
      dictGet_cleanDictValued_ne _ "birth_place" "period" (by decide),
      dictGet_cleanDictValued_ne _ "location" "period" (by decide),
      dictGet_checkGenderValue_ne _ "period" (by decide),
      dictGet_dropKeyUnless_ne _ "gender" "period" _ (by decide),
      dictGet_dropKeyUnless_ne _ "lifetime" "period" _ (by decide),
      dictGet_dropKeyUnless_self]
  · rw [hfold,
      dictGet_cleanDictValued_ne _ "description" "lifetime" (by decide),
      dictGet_cleanDictValued_ne _ "death_place" "lifetime" (by decide),
      dictGet_cleanDictValued_ne _ "birth_place" "lifetime" (by decide),
      dictGet_cleanDictValued_ne _ "location" "lifetime" (by decide),
      dictGet_checkGenderValue_ne _ "lifetime" (by decide),
      dictGet_dropKeyUnless_ne _ "gender" "lifetime" _ (by decide),
      dictGet_dropKeyUnless_self,
      dictGet_dropKeyUnless_ne _ "period" "lifetime" _ (by decide)]
  · rw [hfold,
      dictGet_cleanDictValued_ne _ "description" "gender" (by decide),
      dictGet_cleanDictValued_ne _ "death_place" "gender" (by decide),
      dictGet_cleanDictValued_ne _ "birth_place" "gender" (by decide),
      dictGet_cleanDictValued_ne _ "location" "gender" (by decide),
      dictGet_checkGenderValue_self,
      dictGet_dropKeyUnless_self,
      dictGet_dropKeyUnless_ne _ "lifetime" "gender" _ (by decide),
      dictGet_dropKeyUnless_ne _ "period" "gender" _ (by decide)]
    cases hg : dictGet props "gender" with
    | none => rfl
    | some v =>
      cases v with
      | str s => by_cases hs : s = "Male" || s = "Female" <;> simp [isStr, hs]
      | _ => simp [isStr]
  · rw [hfold,
      dictGet_cleanDictValued_ne _ "description" "birth_place" (by decide),
      dictGet_cleanDictValued_ne _ "death_place" "birth_place" (by decide),
      dictGet_cleanDictValued_self,
      dictGet_cleanDictValued_ne _ "location" "birth_place" (by decide),
      dictGet_checkGenderValue_ne _ "birth_place" (by decide),
      dictGet_dropKeyUnless_ne _ "gender" "birth_place" _ (by decide),
      dictGet_dropKeyUnless_ne _ "lifetime" "birth_place" _ (by decide),
      dictGet_dropKeyUnless_ne _ "period" "birth_place" _ (by decide)]
  · rw [hfold,
      dictGet_cleanDictValued_ne _ "description" "death_place" (by decide),
      dictGet_cleanDictValued_self,
      dictGet_cleanDictValued_ne _ "birth_place" "death_place" (by decide),
      dictGet_cleanDictValued_ne _ "location" "death_place" (by decide),
      dictGet_checkGenderValue_ne _ "death_place" (by decide),
      dictGet_dropKeyUnless_ne _ "gender" "death_place" _ (by decide),
      dictGet_dropKeyUnless_ne _ "lifetime" "death_place" _ (by decide),
      dictGet_dropKeyUnless_ne _ "period" "death_place" _ (by decide)]
  · rw [cleanNode] at hclean
    cases hid : dictGet node "id" with
    | none => rw [hid] at hclean; exact absurd hclean (by simp)
    | some vid =>
      cases htyv : dictGet node "type" with
      | none => rw [hid, htyv] at hclean; cases vid <;> simp at hclean
      | some vty =>
        rw [hid, htyv] at hclean
        cases vid with
        | str sid =>
          cases vty with
          | str sty =>
            simp only [] at hclean
            split at hclean
            · exact absurd hclean (by simp)
            · simp only [Option.some.injEq, Prod.mk.injEq] at hclean
              obtain ⟨hn, -, -⟩ := hclean
              subst hn
              rw [dictGet_cleanPropsField_self,
                dictGet_cleanNameField_ne _ _ (by decide),
                dictGet_dictFilterKeys_of_keep _ _ _ (by decide), hprops]
          | int m => simp at hclean
          | bool b => simp at hclean
          | none => simp at hclean
          | list l => simp at hclean
          | dict dd => simp at hclean
        | int m => cases vty <;> simp at hclean
        | bool b => cases vty <;> simp at hclean
        | none => cases vty <;> simp at hclean
        | list l => cases vty <;> simp at hclean
        | dict dd => cases vty <;> simp at hclean

/-- Witness for C3: a mixed property dict and a concrete `Person` node. -/
theorem c3_schema_cleanup_shape_only_witness :
    dictGet (cleanNodeProps
        [("period", PVal.str "x"), ("lifetime", PVal.str "L"),
         ("gender", PVal.str "Other"),
         ("birth_place", PVal.dict [("zh-cn", PVal.str "b"), ("bad", PVal.int 0)]),
         ("death_place", PVal.bool true)]) "period" = some (PVal.str "x") ∧
    dictGet (cleanNodeProps
        [("period", PVal.str "x"), ("lifetime", PVal.str "L"),
         ("gender", PVal.str "Other"),
         ("birth_place", PVal.dict [("zh-cn", PVal.str "b"), ("bad", PVal.int 0)]),
         ("death_place", PVal.bool true)]) "lifetime" = some (PVal.str "L") ∧
    dictGet (cleanNodeProps
        [("period", PVal.str "x"), ("lifetime", PVal.str "L"),
         ("gender", PVal.str "Other"),
         ("birth_place", PVal.dict [("zh-cn", PVal.str "b"), ("bad", PVal.int 0)]),
         ("death_place", PVal.bool true)]) "gender" = Option.none ∧
    dictGet (cleanNodeProps
        [("period", PVal.str "x"), ("lifetime", PVal.str "L"),
         ("gender", PVal.str "Other"),
         ("birth_place", PVal.dict [("zh-cn", PVal.str "b"), ("bad", PVal.int 0)]),
         ("death_place", PVal.bool true)]) "birth_place"
      = some (PVal.dict [("zh-cn", PVal.str "b")]) ∧
    dictGet (cleanNodeProps
        [("period", PVal.str "x"), ("lifetime", PVal.str "L"),
         ("gender", PVal.str "Other"),
         ("birth_place", PVal.dict [("zh-cn", PVal.str "b"), ("bad", PVal.int 0)]),
         ("death_place", PVal.bool true)]) "death_place" = Option.none ∧
    dictGet [("id", PVal.str "Q1"), ("type", PVal.str "Person"),
        ("properties", PVal.dict [("period", PVal.str "1990s")])] "properties"
      = some (PVal.dict (cleanNodeProps [("period", PVal.str "1990s")])) := by
  have h := c3_schema_cleanup_shape_only
    [("period", PVal.str "x"), ("lifetime", PVal.str "L"),
     ("gender", PVal.str "Other"),
     ("birth_place", PVal.dict [("zh-cn", PVal.str "b"), ("bad", PVal.int 0)]),
     ("death_place", PVal.bool true)]
    [("id", PVal.str "Q1"), ("type", PVal.str "Person"),
     ("properties", PVal.dict [("period", PVal.str "1990s")])]
    [("period", PVal.str "1990s")]
    [("id", PVal.str "Q1"), ("type", PVal.str "Person"),
     ("properties", PVal.dict [("period", PVal.str "1990s")])]
    "Q1" "Person" rfl rfl
  exact ⟨h.1, h.2.1, h.2.2.1, h.2.2.2.1, h.2.2.2.2.1, h.2.2.2.2.2⟩

/-! ### Further dict lemmas for the relationship-schema claim -/

theorem dictHas_dictSet_self (m : List (String × α)) (k : String) (v : α) :
    dictHas (dictSet m k v) k = true := by
  induction m with
  | nil => simp [dictSet, dictHas]
  | cons p rest ih =>
    obtain ⟨k₀, v₀⟩ := p
    by_cases h : k₀ = k <;> simp [dictSet, dictHas, h, ih]

theorem dictHas_dictSet_of (m : List (String × α)) (k k' : String) (v : α)
    (h : dictHas m k' = true) : dictHas (dictSet m k v) k' = true := by
  induction m with
  | nil => simp [dictHas] at h
  | cons p rest ih =>
    obtain ⟨k₀, v₀⟩ := p
    by_cases hk : k₀ = k
    · subst hk
      simp only [dictHas, Bool.or_eq_true] at h
      rcases h with h | h <;> simp [dictSet, dictHas, h]
    · simp only [dictHas, Bool.or_eq_true] at h
      rcases h with h | h
      · simp [dictSet, dictHas, hk, h]
      · simp [dictSet, dictHas, hk, ih h]

theorem dictGet_isSome_of_dictHas (m : List (String × α)) (k : String)
    (h : dictHas m k = true) : ∃ v, dictGet m k = some v := by
  induction m with
  | nil => simp [dictHas] at h
  | cons p rest ih =>
    obtain ⟨k₀, v₀⟩ := p
    by_cases hk : k₀ = k
    · exact ⟨v₀, by simp [dictGet, hk]⟩
    · simp only [dictHas, Bool.or_eq_true, decide_eq_true_eq] at h
      rcases h with h | h
      · exact absurd h hk
      · obtain ⟨v, hv⟩ := ih h
        exact ⟨v, by simp [dictGet, hk, hv]⟩

theorem keyMem_dictSet (d : List (String × α)) (k : String) (v : α) :
    ∀ q ∈ dictSet d k v, q.1 = k ∨ q.1 ∈ d.map Prod.fst := by
  induction d with
  | nil => intro q hq; simp [dictSet] at hq; simp [hq]
  | cons p rest ih =>
    obtain ⟨k₀, v₀⟩ := p
    intro q hq
    by_cases h : k₀ = k
    · simp only [dictSet, if_pos h, List.mem_cons] at hq
      rcases hq with hq | hq
      · left; rw [hq, h]
      · right; simp [List.mem_map]; exact Or.inr ⟨q.2, by simpa using hq⟩
    · simp only [dictSet, if_neg h, List.mem_cons] at hq
      rcases hq with hq | hq
      · right; rw [hq]; simp
      · rcases ih q hq with h' | h'
        · exact Or.inl h'
        · right; simp only [List.map_cons, List.mem_cons]; exact Or.inr h'

theorem keyMem_dictErase (d : List (String × α)) (k : String) :
    ∀ q ∈ dictErase d k, q.1 ∈ d.map Prod.fst := by
  induction d with
  | nil => intro q hq; simp [dictErase] at hq
  | cons p rest ih =>
    obtain ⟨k₀, v₀⟩ := p
    intro q hq
    by_cases h : k₀ = k
    · simp only [dictErase, if_pos h] at hq
      simp only [List.map_cons, List.mem_cons]
      exact Or.inr (ih q hq)
    · simp only [dictErase, if_neg h, List.mem_cons] at hq
      rcases hq with hq | hq
      · rw [hq]; simp
      · simp only [List.map_cons, List.mem_cons]; exact Or.inr (ih q hq)

theorem keyMem_dictFilterKeys (d : List (String × α)) (keep : String → Bool) :
    ∀ q ∈ dictFilterKeys d keep, keep q.1 = true := by
  induction d with
  | nil => intro q hq; simp [dictFilterKeys] at hq
  | cons p rest ih =>
    obtain ⟨k₀, v₀⟩ := p
    intro q hq
    by_cases h : keep k₀
    · simp only [dictFilterKeys, if_pos h, List.mem_cons] at hq
      rcases hq with hq | hq
      · rw [hq]; exact h
      · exact ih q hq
    · simp only [dictFilterKeys, if_neg h] at hq
      exact ih q hq

theorem keyMem_cleanNameField (n : Dict) :
    ∀ q ∈ cleanNameField n, q.1 = "name" ∨ q.1 ∈ n.map Prod.fst := by
  intro q hq
  cases hv : dictGet n "name" with
  | none =>
    rw [cleanNameField, hv] at hq
    exact Or.inr (List.mem_map_of_mem Prod.fst hq)
  | some v =>
    cases v <;> rw [cleanNameField, hv] at hq
    case dict nd => exact keyMem_dictSet _ _ _ q hq
    all_goals exact Or.inr (keyMem_dictErase _ _ q hq)

theorem keyMem_cleanPropsField (n : Dict) :
    ∀ q ∈ cleanPropsField n, q.1 = "properties" ∨ q.1 ∈ n.map Prod.fst := by
  intro q hq
  cases hv : dictGet n "properties" with
  | none =>
    rw [cleanPropsField, hv] at hq
    exact Or.inr (List.mem_map_of_mem Prod.fst hq)
  | some v =>
    cases v <;> rw [cleanPropsField, hv] at hq
    case dict pd => exact keyMem_dictSet _ _ _ q hq
    all_goals exact Or.inr (keyMem_dictErase _ _ q hq)

/-- What `cleanNode` guarantees about a surviving node: the id and type are
kept (and match the returned id/type), the id is nonempty, the type is one
of the six valid node types, and only the four allowed top-level keys
survive. -/
theorem cleanNode_spec (node n : Dict) (nid nty : String)
    (hclean : cleanNode (.dict node) = some (n, nid, nty)) :
    dictGet n "id" = some (.str nid) ∧ dictGet n "type" = some (.str nty) ∧
    nid ≠ "" ∧ VALID_NODE_TYPES.contains nty = true ∧
    ∀ p ∈ n, p.1 ∈ allowedNodeKeys := by
  rw [cleanNode] at hclean
  cases hid : dictGet node "id" with
  | none => rw [hid] at hclean; exact absurd hclean (by simp)
  | some vid =>
    cases htyv : dictGet node "type" with
    | none => rw [hid, htyv] at hclean; cases vid <;> simp at hclean
    | some vty =>
      rw [hid, htyv] at hclean
      cases vid with
      | str sid =>
        cases vty with
        | str sty =>
          simp only [] at hclean
          split at hclean
          case isTrue hguard => exact absurd hclean (by simp)
          case isFalse hguard =>
            simp only [Option.some.injEq, Prod.mk.injEq] at hclean
            obtain ⟨hn, hnid, hnty⟩ := hclean
            subst hn hnid hnty
            have hg : (decide (sid = "") || !VALID_NODE_TYPES.contains sty) = false :=
              Bool.eq_false_iff.mpr hguard
            rw [Bool.or_eq_false_iff] at hg
            have hsid : sid ≠ "" := by simpa using hg.1
            have hsty : VALID_NODE_TYPES.contains sty = true := by simpa using hg.2
            refine ⟨?_, ?_, hsid, hsty, ?_⟩
            · rw [dictGet_cleanPropsField_ne _ _ (by decide),
                dictGet_cleanNameField_ne _ _ (by decide),
                dictGet_dictFilterKeys_of_keep _ _ _ (by decide), hid]
            · rw [dictGet_cleanPropsField_ne _ _ (by decide),
                dictGet_cleanNameField_ne _ _ (by decide),
                dictGet_dictFilterKeys_of_keep _ _ _ (by decide), htyv]
            · intro p hp
              rcases keyMem_cleanPropsField _ p hp with h | h
              · rw [h]; simp [allowedNodeKeys]
              · obtain ⟨q, hq, hq1⟩ := List.mem_map.mp h
                rcases keyMem_cleanNameField _ q hq with h' | h'
                · rw [← hq1, h']; simp [allowedNodeKeys]
                · obtain ⟨q', hq', hq1'⟩ := List.mem_map.mp h'
                  have hkeep := keyMem_dictFilterKeys _ _ q' hq'
                  rw [← hq1, ← hq1']
                  simpa using hkeep
        | int m => simp at hclean
        | bool b => simp at hclean
        | none => simp at hclean
        | list l => simp at hclean
        | dict dd => simp at hclean
      | int m => cases vty <;> simp at hclean
      | bool b => cases vty <;> simp at hclean
      | none => cases vty <;> simp at hclean
      | list l => cases vty <;> simp at hclean
      | dict dd => cases vty <;> simp at hclean

theorem dictGet_cleanRelPropsField_ne (r : Dict) (k : String) (h : k ≠ "properties") :
    dictGet (cleanRelPropsField r) k = dictGet r k := by
  have hErase := dictGet_dictErase_ne r "properties" k h
  have hSet : ∀ v : PVal, dictGet (dictSet r "properties" v) k = dictGet r k :=
    fun v => dictGet_dictSet_ne r "properties" k v (fun hh => h hh.symm)
  cases hv : dictGet r "properties" with
  | none => simp [cleanRelPropsField, hv]
  | some v => cases v <;> simp [cleanRelPropsField, hv, hErase, hSet]

theorem keyMem_cleanRelPropsField (r : Dict) :
    ∀ q ∈ cleanRelPropsField r, q.1 = "properties" ∨ q.1 ∈ r.map Prod.fst := by
  intro q hq
  cases hv : dictGet r "properties" with
  | none =>
    rw [cleanRelPropsField, hv] at hq
    exact Or.inr (List.mem_map_of_mem Prod.fst hq)
  | some v =>
    cases v <;> rw [cleanRelPropsField, hv] at hq
    case dict pd => exact keyMem_dictSet _ _ _ q hq
    all_goals exact Or.inr (keyMem_dictErase _ _ q hq)

theorem cleanNode_some_dict (v : PVal) (res : Dict × String × String)
    (h : cleanNode v = some res) : ∃ node, v = PVal.dict node := by
  cases v <;> first | exact ⟨_, rfl⟩ | simp [cleanNode] at h

/-- The invariants of the node pass of `_validate_and_clean_schema`: the
collected `valid_node_ids` are exactly the ids of the surviving nodes,
every valid id has a type in `node_id_to_type_map`, and every surviving
node carries only allowed keys. -/
theorem cleanNodes_spec (nodes : List PVal) :
    (cleanNodes nodes).2.1 = (cleanNodes nodes).1.map nodeId ∧
    (∀ x, (cleanNodes nodes).2.1.contains x = true →
      dictHas (cleanNodes nodes).2.2 x = true) ∧
    (∀ n ∈ (cleanNodes nodes).1, ∀ p ∈ n, p.1 ∈ allowedNodeKeys) := by
  suffices h : ∀ (acc : List Dict × List String × List (String × String)),
      acc.2.1 = acc.1.map nodeId →
      (∀ x, acc.2.1.contains x = true → dictHas acc.2.2 x = true) →
      (∀ n ∈ acc.1, ∀ p ∈ n, p.1 ∈ allowedNodeKeys) →
      ((nodes.foldl
        (fun acc v =>
          match cleanNode v with
          | some (n, nid, nty) => (acc.1 ++ [n], acc.2.1 ++ [nid], dictSet acc.2.2 nid nty)
          | Option.none => acc)
        acc).2.1
          = (nodes.foldl
        (fun acc v =>
          match cleanNode v with
          | some (n, nid, nty) => (acc.1 ++ [n], acc.2.1 ++ [nid], dictSet acc.2.2 nid nty)
          | Option.none => acc)
        acc).1.map nodeId ∧
      (∀ x, (nodes.foldl
        (fun acc v =>
          match cleanNode v with
          | some (n, nid, nty) => (acc.1 ++ [n], acc.2.1 ++ [nid], dictSet acc.2.2 nid nty)
          | Option.none => acc)
        acc).2.1.contains x = true →
        dictHas (nodes.foldl
        (fun acc v =>
          match cleanNode v with
          | some (n, nid, nty) => (acc.1 ++ [n], acc.2.1 ++ [nid], dictSet acc.2.2 nid nty)
          | Option.none => acc)
        acc).2.2 x = true) ∧
      (∀ n ∈ (nodes.foldl
        (fun acc v =>
          match cleanNode v with
          | some (n, nid, nty) => (acc.1 ++ [n], acc.2.1 ++ [nid], dictSet acc.2.2 nid nty)
          | Option.none => acc)
        acc).1, ∀ p ∈ n, p.1 ∈ allowedNodeKeys)) by
    have := h ([], [], []) rfl (by simp [List.contains]) (by simp)
    exact this
  induction nodes with
  | nil => intro acc h1 h2 h3; exact ⟨h1, h2, h3⟩
  | cons v rest ih =>
    intro acc h1 h2 h3
    simp only [List.foldl_cons]
    cases hc : cleanNode v with
    | none =>
      simp only [hc]
      exact ih acc h1 h2 h3
    | some res =>
      obtain ⟨n, nid, nty⟩ := res
      simp only [hc]
      obtain ⟨nodev, rfl⟩ := cleanNode_some_dict v _ hc
      obtain ⟨hsid, hsty, -, -, hkeys⟩ := cleanNode_spec nodev n nid nty hc
      apply ih
      · simp only [List.map_append]
        rw [← h1]
        have : nodeId n = nid := by simp [nodeId, hsid]
        simp [this]
      · intro x hx
        have hx' : x ∈ acc.2.1 ++ [nid] := by simpa using hx
        rcases List.mem_append.mp hx' with hx' | hx'
        · exact dictHas_dictSet_of _ _ _ _ (h2 x (by simpa using hx'))
        · have : x = nid := by simpa using hx'
          rw [this]
          exact dictHas_dictSet_self _ _ _
      · intro n' hn'
        rcases List.mem_append.mp hn' with hn' | hn'
        · exact h3 n' hn'
        · have : n' = n := by simpa using hn'
          rw [this]
          exact hkeys

/-- What `cleanRel` guarantees about a surviving relationship. -/
theorem cleanRel_spec (validIds : List String) (typeMap : List (String × String))
    (v : PVal) (r : Dict) (h : cleanRel validIds typeMap v = some r) :
    ∃ s t ty rule,
      dictGet r "source" = some (.str s) ∧
      dictGet r "target" = some (.str t) ∧
      dictGet r "type" = some (.str ty) ∧
      validIds.contains s = true ∧ validIds.contains t = true ∧
      dictGet RELATIONSHIP_TYPE_RULES ty = some rule ∧
      (∀ l, rule.src = some l → l.contains ((dictGet typeMap s).getD "") = true) ∧
      (∀ l, rule.tgt = some l → l.contains ((dictGet typeMap t).getD "") = true) ∧
      (∀ p ∈ r, p.1 ∈ allowedRelKeys) := by
  obtain ⟨rel, rfl⟩ : ∃ rel, v = PVal.dict rel := by
    cases v <;> first | exact ⟨_, rfl⟩ | simp [cleanRel] at h
  rw [cleanRel] at h
  cases hs : dictGet rel "source" with
  | none => rw [hs] at h; simp at h
  | some vs =>
    cases ht : dictGet rel "target" with
    | none => rw [hs, ht] at h; cases vs <;> simp at h
    | some vt =>
      cases hty : dictGet rel "type" with
      | none => rw [hs, ht, hty] at h; cases vs <;> cases vt <;> simp at h
      | some vty =>
        rw [hs, ht, hty] at h
        cases vs with
        | str s =>
          cases vt with
          | str t =>
            cases vty with
            | str ty =>
              simp only [] at h
              split at h
              · simp at h
              · split at h
                · simp at h
                · rcases hrule : dictGet RELATIONSHIP_TYPE_RULES ty with - | rule
                  · rw [hrule] at h; simp at h
                  · rw [hrule] at h
                    simp only [] at h
                    split at h
                    · simp at h
                    next hbad =>
                      simp only [Option.some.injEq] at h
                      subst h
                      rename_i hguard hvalid
                      have hval : validIds.contains s = true ∧
                          validIds.contains t = true := by
                        have := Bool.eq_false_iff.mpr hvalid
                        simp only [Bool.not_eq_true', Bool.not_eq_false] at this
                        simpa using this
                      have hbad' := Bool.eq_false_iff.mpr hbad
                      rw [Bool.or_eq_false_iff] at hbad'
                      refine ⟨s, t, ty, rule, ?_, ?_, ?_, hval.1, hval.2, hrule,
                        ?_, ?_, ?_⟩
                      · rw [dictGet_cleanRelPropsField_ne _ _ (by decide),
                          dictGet_dictFilterKeys_of_keep _ _ _ (by decide), hs]
                      · rw [dictGet_cleanRelPropsField_ne _ _ (by decide),
                          dictGet_dictFilterKeys_of_keep _ _ _ (by decide), ht]
                      · rw [dictGet_cleanRelPropsField_ne _ _ (by decide),
                          dictGet_dictFilterKeys_of_keep _ _ _ (by decide), hty]
                      · intro l hl
                        have := hbad'.1
                        rw [hl] at this
                        simpa using this
                      · intro l hl
                        have := hbad'.2
                        rw [hl] at this
                        simpa using this
                      · intro p hp
                        rcases keyMem_cleanRelPropsField _ p hp with hk | hk
                        · rw [hk]; simp [allowedRelKeys]
                        · obtain ⟨q, hq, hq1⟩ := List.mem_map.mp hk
                          have hkeep := keyMem_dictFilterKeys _ _ q hq
                          rw [← hq1]
                          simpa using hkeep
            | int m => simp at h
            | bool b => simp at h
            | none => simp at h
            | list l => simp at h
            | dict dd => simp at h
          | int m => cases vty <;> simp at h
          | bool b => cases vty <;> simp at h
          | none => cases vty <;> simp at h
          | list l => cases vty <;> simp at h
          | dict dd => cases vty <;> simp at h
        | int m => cases vt <;> cases vty <;> simp at h
        | bool b => cases vt <;> cases vty <;> simp at h
        | none => cases vt <;> cases vty <;> simp at h
        | list l => cases vt <;> cases vty <;> simp at h
        | dict dd => cases vt <;> cases vty <;> simp at h

/-! ## Claim C7 — schema-validation invariants -/

/-- **C7** (confirmed). After `_validate_and_clean_schema`, every surviving
node carries only the keys `id`/`type`/`name`/`properties`; every surviving
relationship carries only `source`/`target`/`type`/`properties`, its source
and target are ids of surviving nodes, its type has a rule in
`RELATIONSHIP_TYPE_RULES`, and the recorded types of its endpoint nodes are
contained in the rule's allowed source and target lists. -/
theorem c7_schema_invariants (nodes rels : List PVal) :
    (∀ n ∈ (validateAndCleanSchema nodes rels).1, ∀ p ∈ n, p.1 ∈ allowedNodeKeys) ∧
    (∀ r ∈ (validateAndCleanSchema nodes rels).2,
      ∃ s t ty rule sty tty,
        dictGet r "source" = some (.str s) ∧
        dictGet r "target" = some (.str t) ∧
        dictGet r "type" = some (.str ty) ∧
        s ∈ (validateAndCleanSchema nodes rels).1.map nodeId ∧
        t ∈ (validateAndCleanSchema nodes rels).1.map nodeId ∧
        dictGet RELATIONSHIP_TYPE_RULES ty = some rule ∧
        dictGet (cleanNodes nodes).2.2 s = some sty ∧
        dictGet (cleanNodes nodes).2.2 t = some tty ∧
        (∀ l, rule.src = some l → l.contains sty = true) ∧
        (∀ l, rule.tgt = some l → l.contains tty = true) ∧
        (∀ p ∈ r, p.1 ∈ allowedRelKeys)) := by
  obtain ⟨hids, htypes, hkeys⟩ := cleanNodes_spec nodes
  have hfst : (validateAndCleanSchema nodes rels).1 = (cleanNodes nodes).1 := rfl
  have hsnd : (validateAndCleanSchema nodes rels).2
      = rels.filterMap (cleanRel (cleanNodes nodes).2.1 (cleanNodes nodes).2.2) := rfl
  constructor
  · intro n hn
    rw [hfst] at hn
    exact hkeys n hn
  · intro r hr
    rw [hsnd] at hr
    obtain ⟨v, hv, hclean⟩ := List.mem_filterMap.mp hr
    obtain ⟨s, t, ty, rule, h1, h2, h3, hcs, hct, hrule, hsrc, htgt, hkeysr⟩ :=
      cleanRel_spec _ _ _ _ hclean
    obtain ⟨sty, hsty⟩ := dictGet_isSome_of_dictHas _ _ (htypes s hcs)
    obtain ⟨tty, htty⟩ := dictGet_isSome_of_dictHas _ _ (htypes t hct)
    refine ⟨s, t, ty, rule, sty, tty, h1, h2, h3, ?_, ?_, hrule, hsty, htty,
      ?_, ?_, hkeysr⟩
    · rw [hfst, ← hids]
      simpa using hcs
    · rw [hfst, ← hids]
      simpa using hct
    · intro l hl
      have := hsrc l hl
      rwa [hsty] at this
    · intro l hl
      have := htgt l hl
      rwa [htty] at this

/-- Witness for C7: a two-node graph with one `BORN_IN` relationship. -/
theorem c7_schema_invariants_witness :
    ∃ s t ty rule sty tty,
      dictGet [("source", PVal.str "Q1"), ("target", PVal.str "Q2"),
        ("type", PVal.str "BORN_IN")] "source" = some (.str s) ∧
      dictGet [("source", PVal.str "Q1"), ("target", PVal.str "Q2"),
        ("type", PVal.str "BORN_IN")] "target" = some (.str t) ∧
      dictGet [("source", PVal.str "Q1"), ("target", PVal.str "Q2"),
        ("type", PVal.str "BORN_IN")] "type" = some (.str ty) ∧
      s ∈ (validateAndCleanSchema
        [PVal.dict [("id", PVal.str "Q1"), ("type", PVal.str "Person")],
         PVal.dict [("id", PVal.str "Q2"), ("type", PVal.str "Location")]]
        [PVal.dict [("source", PVal.str "Q1"), ("target", PVal.str "Q2"),
          ("type", PVal.str "BORN_IN")]]).1.map nodeId ∧
      t ∈ (validateAndCleanSchema
        [PVal.dict [("id", PVal.str "Q1"), ("type", PVal.str "Person")],
         PVal.dict [("id", PVal.str "Q2"), ("type", PVal.str "Location")]]
        [PVal.dict [("source", PVal.str "Q1"), ("target", PVal.str "Q2"),
          ("type", PVal.str "BORN_IN")]]).1.map nodeId ∧
      dictGet RELATIONSHIP_TYPE_RULES ty = some rule ∧
      dictGet (cleanNodes
        [PVal.dict [("id", PVal.str "Q1"), ("type", PVal.str "Person")],
         PVal.dict [("id", PVal.str "Q2"), ("type", PVal.str "Location")]]).2.2 s
        = some sty ∧
      dictGet (cleanNodes
        [PVal.dict [("id", PVal.str "Q1"), ("type", PVal.str "Person")],
         PVal.dict [("id", PVal.str "Q2"), ("type", PVal.str "Location")]]).2.2 t
        = some tty ∧
      (∀ l, rule.src = some l → l.contains sty = true) ∧
      (∀ l, rule.tgt = some l → l.contains tty = true) ∧
      (∀ p ∈ [("source", PVal.str "Q1"), ("target", PVal.str "Q2"),
        ("type", PVal.str "BORN_IN")], p.1 ∈ allowedRelKeys) := by
  have h := (c7_schema_invariants
    [PVal.dict [("id", PVal.str "Q1"), ("type", PVal.str "Person")],
     PVal.dict [("id", PVal.str "Q2"), ("type", PVal.str "Location")]]
    [PVal.dict [("source", PVal.str "Q1"), ("target", PVal.str "Q2"),
      ("type", PVal.str "BORN_IN")]]).2
    [("source", PVal.str "Q1"), ("target", PVal.str "Q2"),
      ("type", PVal.str "BORN_IN")]
    (by
      have e : (validateAndCleanSchema
        [PVal.dict [("id", PVal.str "Q1"), ("type", PVal.str "Person")],
         PVal.dict [("id", PVal.str "Q2"), ("type", PVal.str "Location")]]
        [PVal.dict [("source", PVal.str "Q1"), ("target", PVal.str "Q2"),
          ("type", PVal.str "BORN_IN")]]).2
        = [[("source", PVal.str "Q1"), ("target", PVal.str "Q2"),
            ("type", PVal.str "BORN_IN")]] := rfl
      rw [e]
      exact List.mem_singleton.mpr rfl)
  exact h

/-! ## Claim C1 — identity-resolution order in the Merger -/

/-- **C1, counterexample.** The claim says identity resolution calls
`getQcode` first and that a node whose primary name resolves to a Q-code is
never dropped. In the code, `check_link_status` runs *first* for an unmapped
name, and a `REDIRECT`/`DISAMBIG` status drops the node with `continue`
before `get_qcode` is ever called: here the oracle would return `Q5` for
every query, yet the node is dropped. -/
theorem c1_redirect_dropped_despite_qcode_counterexample :
    processNode
      { linkStatus := fun _ _ => ("REDIRECT", some "Y")
        getQcode := fun _ _ => some "Q5"
        t2s := id
        shouldTriggerMerge := fun _ _ => false
        callMergeLLM := fun _ _ => Option.none }
      { nameToQcode := [], masterNodes := [], localMap := [], titlesAdded := [] }
      [("name", PVal.dict [("zh-cn", PVal.list [PVal.str "X"])])]
      = ({ nameToQcode := [], masterNodes := [], localMap := [], titlesAdded := [] },
         NodeOutcome.droppedRedirect "REDIRECT" (some "Y")) ∧
    (fun (_ _ : String) => some "Q5") "X" "zh" = some "Q5" := ⟨rfl, rfl⟩

/-- **C1, amended** (corrected). For a fragment node whose primary name `p`
is not in the global name map, the Merger consults `checkLinkStatus` *first*:
a `REDIRECT` or `DISAMBIG` status drops the node before `getQcode` is
called, regardless of whether the name would resolve to a Q-code. Only for
other statuses is `getQcode` consulted, and a returned Q-code leads to the
node being merged into the existing node with that Q-code or created as a
new node with id = Q-code. -/
theorem c1_identity_resolution_order (o : MergerOracles) (st : MergerState)
    (node : Dict) (lang p : String) (restNames : List PVal)
    (restLangs : List (String × PVal)) (status : String) (detail : Option String)
    (hname : dictGet node "name"
      = some (.dict ((lang, .list (.str p :: restNames)) :: restLangs)))
    (hp : p ≠ "")
    (hunmapped : dictGet st.nameToQcode p = Option.none)
    (hlink : o.linkStatus p (if containsSub lang "zh" then "zh" else lang)
      = (status, detail)) :
    ((status = "REDIRECT" ∨ status = "DISAMBIG") →
      processNode o st node = (st, .droppedRedirect status detail)) ∧
    (status ≠ "REDIRECT" → status ≠ "DISAMBIG" →
      ∀ q, o.getQcode p (if containsSub lang "zh" then "zh" else lang) = some q →
        (processNode o st node).2 = .mergedExisting q ∨
        (processNode o st node).2 = .createdNew q) := by
  constructor
  · intro hstat
    rw [processNode, hname]
    dsimp only
    rw [if_neg hp]
    dsimp only
    simp only [hunmapped]
    simp only [hlink]
    rcases hstat with h | h <;> simp [h]
  · intro h₁ h₂ q hq
    rw [processNode, hname]
    dsimp only
    rw [if_neg hp]
    dsimp only
    simp only [hunmapped]
    simp only [hlink]
    have hcond : ((decide (status = "REDIRECT") || decide (status = "DISAMBIG")) = true)
        = False := by simp [h₁, h₂]
    simp only [hcond, if_false, hq]
    cases hmn : dictGet st.masterNodes q with
    | some existingNode =>
      simp only [hmn]
      exact Or.inl trivial
    | none =>
      simp only [hmn]
      exact Or.inr trivial

/-- Witness for C1's amended theorem: a `DISAMBIG` name is dropped, and an
`OK` name with Q-code `Q7` becomes a new node. -/
theorem c1_identity_resolution_order_witness :
    (processNode
      { linkStatus := fun _ _ => ("DISAMBIG", Option.none)
        getQcode := fun _ _ => some "Q7"
        t2s := id
        shouldTriggerMerge := fun _ _ => false
        callMergeLLM := fun _ _ => Option.none }
      { nameToQcode := [], masterNodes := [], localMap := [], titlesAdded := [] }
      [("name", PVal.dict [("zh-cn", PVal.list [PVal.str "X"])])]
      = ({ nameToQcode := [], masterNodes := [], localMap := [], titlesAdded := [] },
         .droppedRedirect "DISAMBIG" Option.none)) ∧
    ((processNode
      { linkStatus := fun _ _ => ("OK", Option.none)
        getQcode := fun _ _ => some "Q7"
        t2s := id
        shouldTriggerMerge := fun _ _ => false
        callMergeLLM := fun _ _ => Option.none }
      { nameToQcode := [], masterNodes := [], localMap := [], titlesAdded := [] }
      [("name", PVal.dict [("zh-cn", PVal.list [PVal.str "X"])])]).2
      = .mergedExisting "Q7" ∨
     (processNode
      { linkStatus := fun _ _ => ("OK", Option.none)
        getQcode := fun _ _ => some "Q7"
        t2s := id
        shouldTriggerMerge := fun _ _ => false
        callMergeLLM := fun _ _ => Option.none }
      { nameToQcode := [], masterNodes := [], localMap := [], titlesAdded := [] }
      [("name", PVal.dict [("zh-cn", PVal.list [PVal.str "X"])])]).2
      = .createdNew "Q7") :=
  ⟨(c1_identity_resolution_order
      { linkStatus := fun _ _ => ("DISAMBIG", Option.none)
        getQcode := fun _ _ => some "Q7"
        t2s := id
        shouldTriggerMerge := fun _ _ => false
        callMergeLLM := fun _ _ => Option.none }
      { nameToQcode := [], masterNodes := [], localMap := [], titlesAdded := [] }
      [("name", PVal.dict [("zh-cn", PVal.list [PVal.str "X"])])]
      "zh-cn" "X" [] [] "DISAMBIG" Option.none rfl (by decide) rfl rfl).1
      (Or.inr rfl),
   (c1_identity_resolution_order
      { linkStatus := fun _ _ => ("OK", Option.none)
        getQcode := fun _ _ => some "Q7"
        t2s := id
        shouldTriggerMerge := fun _ _ => false
        callMergeLLM := fun _ _ => Option.none }
      { nameToQcode := [], masterNodes := [], localMap := [], titlesAdded := [] }
      [("name", PVal.dict [("zh-cn", PVal.list [PVal.str "X"])])]
      "zh-cn" "X" [] [] "OK" Option.none rfl (by decide) rfl rfl).2
      (by decide) (by decide) "Q7" rfl⟩

/-! ### Lemmas for the canonical relationship key -/

theorem charsLe_total (a b : List Char) : charsLe a b = true ∨ charsLe b a = true := by
  induction a generalizing b with
  | nil => exact Or.inl rfl
  | cons c cs ih =>
    cases b with
    | nil => exact Or.inr rfl
    | cons d ds =>
      by_cases hcd : c = d
      · subst hcd
        rcases ih ds with h | h
        · exact Or.inl (by simp [charsLe, h])
        · exact Or.inr (by simp [charsLe, h])
      · have hdc : ¬d = c := fun hh => hcd hh.symm
        rcases le_total c d with h | h
        · exact Or.inl (by rw [charsLe, if_neg hcd]; exact decide_eq_true h)
        · exact Or.inr (by rw [charsLe, if_neg hdc]; exact decide_eq_true h)

theorem charsLe_antisymm (a b : List Char) (h₁ : charsLe a b = true)
    (h₂ : charsLe b a = true) : a = b := by
  induction a generalizing b with
  | nil =>
    cases b with
    | nil => rfl
    | cons d ds => simp [charsLe] at h₂
  | cons c cs ih =>
    cases b with
    | nil => simp [charsLe] at h₁
    | cons d ds =>
      by_cases hcd : c = d
      · subst hcd
        simp only [charsLe, if_pos rfl] at h₁ h₂
        rw [ih ds h₁ h₂]
      · rw [charsLe, if_neg hcd] at h₁
        rw [charsLe, if_neg (fun hh => hcd hh.symm)] at h₂
        exact absurd (le_antisymm (of_decide_eq_true h₁) (of_decide_eq_true h₂)) hcd

theorem sortPair_comm (a b : String) : sortPair a b = sortPair b a := by
  rw [sortPair, sortPair]
  by_cases h₁ : strLeB a b = true
  · by_cases h₂ : strLeB b a = true
    · have hdata : a.data = b.data := charsLe_antisymm a.data b.data h₁ h₂
      have hab : a = b := by
        cases a
        cases b
        simp only [] at hdata
        rw [hdata]
      simp [hab]
    · simp [h₁, h₂]
  · have h₂ : strLeB b a = true := by
      rcases charsLe_total a.data b.data with h | h
      · exact absurd h h₁
      · exact h
    simp [h₁, h₂]

/-- The canonical key of a dict with the three fields in standard order. -/
theorem getCanonicalRelKey_fields (rel : Dict) (s t ty : String)
    (hs : dictGet rel "source" = some (.str s))
    (ht : dictGet rel "target" = some (.str t))
    (hty : dictGet rel "type" = some (.str ty)) (htyne : ty ≠ "") :
    getCanonicalRelKey rel =
      (if NON_DIRECTED_LINK_TYPES.contains ty then some (sortPair s t, ty)
       else some ((s, t), ty)) := by
  rw [getCanonicalRelKey, hs, ht, hty]
  simp [htyne]

/-- Inserting a fully resolved relationship into an index that does not yet
hold its canonical key stores it under that key. -/
theorem processRel_insert_fresh (o : MergerOracles) (lm nm : List (String × String))
    (rel : Dict) (X Y ty : String)
    (hs : dictGet rel "source" = some (.str X))
    (ht : dictGet rel "target" = some (.str Y))
    (htyf : dictGet rel "type" = some (.str ty))
    (hresX : resolveName lm nm X = some X)
    (hresY : resolveName lm nm Y = some Y)
    (hX : X ≠ "") (hY : Y ≠ "")
    (hty : NON_DIRECTED_LINK_TYPES.contains ty = true) (htyne : ty ≠ "") :
    processRel o lm nm [] rel
      = [((sortPair X Y, ty),
          dictSet (dictSet rel "source" (.str X)) "target" (.str Y))] := by
  have hs' : dictGet (dictSet (dictSet rel "source" (.str X)) "target" (.str Y))
      "source" = some (.str X) := by
    rw [dictGet_dictSet_ne _ _ _ _ (by decide), dictGet_dictSet_self]
  have ht' : dictGet (dictSet (dictSet rel "source" (.str X)) "target" (.str Y))
      "target" = some (.str Y) := dictGet_dictSet_self _ _ _
  have htyf' : dictGet (dictSet (dictSet rel "source" (.str X)) "target" (.str Y))
      "type" = some (.str ty) := by
    rw [dictGet_dictSet_ne _ _ _ _ (by decide),
      dictGet_dictSet_ne _ _ _ _ (by decide), htyf]
  rw [processRel]
  simp only [hs, ht, Option.some_bind, Option.bind_some, hresX, hresY]
  rw [if_neg (by simp [hX, hY])]
  rw [getCanonicalRelKey_fields _ _ _ _ hs' ht' htyf' htyne, if_pos hty]
  rfl

/-- Re-inserting the same canonical key leaves the index with that key,
possibly with an LLM-merged value. -/
theorem processRel_insert_existing (o : MergerOracles) (lm nm : List (String × String))
    (relsMap : List (RelKey × Dict)) (rel : Dict) (X Y ty : String) (v₀ : Dict)
    (hs : dictGet rel "source" = some (.str X))
    (ht : dictGet rel "target" = some (.str Y))
    (htyf : dictGet rel "type" = some (.str ty))
    (hresX : resolveName lm nm X = some X)
    (hresY : resolveName lm nm Y = some Y)
    (hX : X ≠ "") (hY : Y ≠ "")
    (hty : NON_DIRECTED_LINK_TYPES.contains ty = true) (htyne : ty ≠ "")
    (hget : relsGet relsMap (sortPair X Y, ty) = some v₀) :
    processRel o lm nm relsMap rel = relsMap ∨
    ∃ m, processRel o lm nm relsMap rel = relsSet relsMap (sortPair X Y, ty) m := by
  have hs' : dictGet (dictSet (dictSet rel "source" (.str X)) "target" (.str Y))
      "source" = some (.str X) := by
    rw [dictGet_dictSet_ne _ _ _ _ (by decide), dictGet_dictSet_self]
  have ht' : dictGet (dictSet (dictSet rel "source" (.str X)) "target" (.str Y))
      "target" = some (.str Y) := dictGet_dictSet_self _ _ _
  have htyf' : dictGet (dictSet (dictSet rel "source" (.str X)) "target" (.str Y))
      "type" = some (.str ty) := by
    rw [dictGet_dictSet_ne _ _ _ _ (by decide),
      dictGet_dictSet_ne _ _ _ _ (by decide), htyf]
  rw [processRel]
  simp only [hs, ht, Option.some_bind, Option.bind_some, hresX, hresY]
  rw [if_neg (by simp [hX, hY])]
  rw [getCanonicalRelKey_fields _ _ _ _ hs' ht' htyf' htyne, if_pos hty]
  dsimp only
  rw [hget]
  dsimp only
  by_cases hb : o.shouldTriggerMerge v₀
      (dictSet (dictSet rel "source" (.str X)) "target" (.str Y)) = true
  · rw [if_pos hb]
    cases hm : o.callMergeLLM v₀
        (dictSet (dictSet rel "source" (.str X)) "target" (.str Y)) with
    | none => exact Or.inl rfl
    | some m =>
      dsimp only
      by_cases hme : m.isEmpty = true
      · rw [if_pos hme]
        exact Or.inl rfl
      · rw [if_neg hme]
        exact Or.inr ⟨m, rfl⟩
  · rw [if_neg hb]
    exact Or.inl rfl

/-- `relsSet` on a singleton with its own key replaces the value. -/
theorem relsSet_singleton_self (k : RelKey) (v m : Dict) :
    relsSet [(k, v)] k m = [(k, m)] := by
  simp [relsSet]

/-! ## Claim C6 — undirected relationship deduplication -/

/-- **C6** (confirmed). For node ids `A`, `B` and an undirected type,
inserting `A→B` then `B→A` through the Merger's relationship loop (in
either order) leaves exactly one stored relationship, keyed by
`(min(A,B), max(A,B), type)`; the canonical key of an undirected
relationship is invariant under swapping source and target, while a
directed type is keyed by `(source, target, type)` as-is. -/
theorem c6_undirected_dedup (o : MergerOracles) (A B ty : String) (rel₁ rel₂ : Dict)
    (hty : NON_DIRECTED_LINK_TYPES.contains ty = true) (htyne : ty ≠ "")
    (hA : A ≠ "") (hB : B ≠ "")
    (h₁s : dictGet rel₁ "source" = some (.str A))
    (h₁t : dictGet rel₁ "target" = some (.str B))
    (h₁ty : dictGet rel₁ "type" = some (.str ty))
    (h₂s : dictGet rel₂ "source" = some (.str B))
    (h₂t : dictGet rel₂ "target" = some (.str A))
    (h₂ty : dictGet rel₂ "type" = some (.str ty)) :
    (∃ v, processRels o [(A, A), (B, B)] [] [] [rel₁, rel₂]
      = [((sortPair A B, ty), v)]) ∧
    (∃ v, processRels o [(A, A), (B, B)] [] [] [rel₂, rel₁]
      = [((sortPair A B, ty), v)]) ∧
    (∀ s t, getCanonicalRelKey
        [("source", .str s), ("target", .str t), ("type", .str ty)]
      = getCanonicalRelKey
        [("source", .str t), ("target", .str s), ("type", .str ty)]) ∧
    (∀ s t ty', NON_DIRECTED_LINK_TYPES.contains ty' = false → ty' ≠ "" →
      getCanonicalRelKey
        [("source", .str s), ("target", .str t), ("type", .str ty')]
        = some ((s, t), ty')) := by
  have hresA : resolveName [(A, A), (B, B)] [] A = some A := by
    rw [resolveName]
    simp [dictGet, hA]
  have hresB : resolveName [(A, A), (B, B)] [] B = some B := by
    by_cases hAB : A = B
    · subst hAB
      rw [resolveName]
      simp [dictGet, hA]
    · rw [resolveName]
      simp [dictGet, hAB, hB]
  refine ⟨?_, ?_, ?_, ?_⟩
  · have step₁ := processRel_insert_fresh o [(A, A), (B, B)] [] rel₁ A B ty
      h₁s h₁t h₁ty hresA hresB hA hB hty htyne
    have hget : relsGet [((sortPair A B, ty),
        dictSet (dictSet rel₁ "source" (.str A)) "target" (.str B))]
        (sortPair B A, ty) = some
        (dictSet (dictSet rel₁ "source" (.str A)) "target" (.str B)) := by
      rw [sortPair_comm B A]
      simp [relsGet]
    have step₂ := processRel_insert_existing o [(A, A), (B, B)] []
      [((sortPair A B, ty), dictSet (dictSet rel₁ "source" (.str A)) "target" (.str B))]
      rel₂ B A ty _ h₂s h₂t h₂ty hresB hresA hB hA hty htyne hget
    show ∃ v, processRel o [(A, A), (B, B)] []
      (processRel o [(A, A), (B, B)] [] [] rel₁) rel₂ = [((sortPair A B, ty), v)]
    rw [step₁]
    rcases step₂ with h | ⟨m, h⟩
    · exact ⟨_, h⟩
    · rw [h, sortPair_comm B A, relsSet_singleton_self]
      exact ⟨m, rfl⟩
  · have step₁ := processRel_insert_fresh o [(A, A), (B, B)] [] rel₂ B A ty
      h₂s h₂t h₂ty hresB hresA hB hA hty htyne
    have hget : relsGet [((sortPair B A, ty),
        dictSet (dictSet rel₂ "source" (.str B)) "target" (.str A))]
        (sortPair A B, ty) = some
        (dictSet (dictSet rel₂ "source" (.str B)) "target" (.str A)) := by
      rw [sortPair_comm A B]
      simp [relsGet]
    have step₂ := processRel_insert_existing o [(A, A), (B, B)] []
      [((sortPair B A, ty), dictSet (dictSet rel₂ "source" (.str B)) "target" (.str A))]
      rel₁ A B ty _ h₁s h₁t h₁ty hresA hresB hA hB hty htyne hget
    show ∃ v, processRel o [(A, A), (B, B)] []
      (processRel o [(A, A), (B, B)] [] [] rel₂) rel₁ = [((sortPair A B, ty), v)]
    rw [step₁]
    rcases step₂ with h | ⟨m, h⟩
    · rw [h, sortPair_comm B A]
      exact ⟨_, rfl⟩
    · rw [h, sortPair_comm B A, relsSet_singleton_self]
      exact ⟨m, rfl⟩
  · intro s t
    rw [getCanonicalRelKey_fields _ s t ty (by simp [dictGet]) (by simp [dictGet])
        (by simp [dictGet]) htyne,
      getCanonicalRelKey_fields _ t s ty (by simp [dictGet]) (by simp [dictGet])
        (by simp [dictGet]) htyne,
      if_pos hty, if_pos hty, sortPair_comm]
  · intro s t ty' hty' htyne'
    rw [getCanonicalRelKey_fields _ s t ty' (by simp [dictGet]) (by simp [dictGet])
        (by simp [dictGet]) htyne',
      if_neg (by simpa using hty')]

/-- Witness for C6: `Q1 —FRIEND_OF→ Q2` then `Q2 —FRIEND_OF→ Q1` stored once
under `(("Q1", "Q2"), "FRIEND_OF")`. -/
theorem c6_undirected_dedup_witness :
    ∃ v, processRels
      { linkStatus := fun _ _ => ("OK", Option.none)
        getQcode := fun _ _ => Option.none
        t2s := id
        shouldTriggerMerge := fun _ _ => false
        callMergeLLM := fun _ _ => Option.none }
      [("Q1", "Q1"), ("Q2", "Q2")] [] []
      [[("source", PVal.str "Q1"), ("target", PVal.str "Q2"),
        ("type", PVal.str "FRIEND_OF")],
       [("source", PVal.str "Q2"), ("target", PVal.str "Q1"),
        ("type", PVal.str "FRIEND_OF")]]
      = [((("Q1", "Q2"), "FRIEND_OF"), v)] :=
  (c6_undirected_dedup
    { linkStatus := fun _ _ => ("OK", Option.none)
      getQcode := fun _ _ => Option.none
      t2s := id
      shouldTriggerMerge := fun _ _ => false
      callMergeLLM := fun _ _ => Option.none }
    "Q1" "Q2" "FRIEND_OF"
    [("source", PVal.str "Q1"), ("target", PVal.str "Q2"),
      ("type", PVal.str "FRIEND_OF")]
    [("source", PVal.str "Q2"), ("target", PVal.str "Q1"),
      ("type", PVal.str "FRIEND_OF")]
    rfl (by decide) (by decide) (by decide) rfl rfl rfl rfl rfl rfl).1

/-! ## Claim C8 — temp-ID upgrade -/

theorem dictGet_eq_none_of_not_mem_keys (d : List (String × α)) (k : String)
    (h : k ∉ d.map Prod.fst) : dictGet d k = Option.none := by
  induction d with
  | nil => rfl
  | cons p rest ih =>
    obtain ⟨k₀, v₀⟩ := p
    simp only [List.map_cons, List.mem_cons, not_or] at h
    rw [dictGet, if_neg (fun hh => h.1 hh.symm)]
    exact ih h.2

/-- Per-key semantics of the temp-property overlay: a key absent from the
temp properties keeps its existing binding. -/
theorem mergeTempProps_absent (ep tp : Dict) (k : String)
    (h : dictGet tp k = Option.none) :
    dictGet (mergeTempProps ep tp) k = dictGet ep k := by
  induction tp generalizing ep with
  | nil => rfl
  | cons kv rest ih =>
    obtain ⟨k₀, v₀⟩ := kv
    rw [dictGet] at h
    by_cases hk : k₀ = k
    · rw [if_pos hk] at h
      exact absurd h (by simp)
    · rw [if_neg hk] at h
      have step : mergeTempProps ep ((k₀, v₀) :: rest)
          = mergeTempProps (tempOverlayStep ep (k₀, v₀)) rest := rfl
      rw [step, ih _ h, tempOverlayStep]
      exact dictGet_dictSet_ne _ _ _ _ hk

/-- Per-key semantics of the temp-property overlay on a present key (the
temp dict has unique keys, as every Python dict does): dict values merge
key-wise into an existing dict value, anything else replaces. -/
theorem mergeTempProps_present (ep tp : Dict) (k : String) (v : PVal)
    (hnodup : (tp.map Prod.fst).Nodup) (h : dictGet tp k = some v) :
    dictGet (mergeTempProps ep tp) k = some (overlayValue (dictGet ep k) v) := by
  induction tp generalizing ep with
  | nil => simp [dictGet] at h
  | cons kv rest ih =>
    obtain ⟨k₀, v₀⟩ := kv
    simp only [List.map_cons, List.nodup_cons] at hnodup
    rw [dictGet] at h
    have step : mergeTempProps ep ((k₀, v₀) :: rest)
        = mergeTempProps (tempOverlayStep ep (k₀, v₀)) rest := rfl
    by_cases hk : k₀ = k
    · rw [if_pos hk] at h
      have hv : v₀ = v := by injection h
      have hnotmem : k ∉ rest.map Prod.fst := by
        rw [← hk]
        exact hnodup.1
      have hrest : dictGet rest k = Option.none :=
        dictGet_eq_none_of_not_mem_keys _ _ hnotmem
      rw [step, mergeTempProps_absent _ _ _ hrest, tempOverlayStep, ← hv, ← hk]
      exact dictGet_dictSet_self _ _ _
    · rw [if_neg hk] at h
      rw [step, ih _ hnodup.2 h, tempOverlayStep]
      rw [dictGet_dictSet_ne _ _ _ _ hk]

/-- **C8** (confirmed). For a `BAIDU:`/`CDT:` node whose original name
resolves to a Q-code `q`: if `q` is not yet a node id, the upgrade step
renames the node's id to `q` (registering `oldId → q` in `id_remap` and
marking the old id deleted — harmless for the renamed node, whose id is now
`q`); if `q` maps to a different node, the temp node is marked for removal
and its properties are overlaid onto the existing node, dict values merged
key-wise (`overlayValue`) instead of replaced; and the full
`_resolve_temporary_nodes` rewrites the source and target of every
relationship through `id_remap` and drops exactly the nodes whose ids were
marked deleted. -/
theorem c8_temp_id_upgrade (getQ : String → Option String) (s : TempState)
    (i : Nat) (node : Dict) (oldId q : String)
    (hnode : s.store.get? i = some node)
    (hold : nodeId node = oldId)
    (hpre : startsWithB oldId "BAIDU:" = true ∨ startsWithB oldId "CDT:" = true)
    (hq : getQ (afterFirstColon oldId) = some q)
    (hqne : q ≠ "") :
    (dictGet s.nodesMap q = Option.none →
      resolveTempStep getQ s i =
        { store := s.store.set i (dictSet node "id" (.str q))
          nodesMap := dictSet s.nodesMap q i
          idRemap := dictSet s.idRemap oldId q
          toDelete := addToDelete s.toDelete oldId }) ∧
    (∀ j existing tp ep,
      dictGet s.nodesMap q = some j → j ≠ i →
      s.store.get? j = some existing →
      dictGet node "properties" = some (.dict tp) → tp ≠ [] →
      dictGet existing "properties" = some (.dict ep) →
      resolveTempStep getQ s i =
        { store := s.store.set j
            (dictSet existing "properties" (.dict (mergeTempProps ep tp)))
          nodesMap := s.nodesMap
          idRemap := dictSet s.idRemap oldId q
          toDelete := addToDelete s.toDelete oldId }) ∧
    (∀ ep tp k (v : PVal), (tp.map Prod.fst).Nodup → dictGet tp k = some v →
      dictGet (mergeTempProps ep tp) k = some (overlayValue (dictGet ep k) v)) ∧
    (∀ ep tp k, dictGet tp k = Option.none →
      dictGet (mergeTempProps ep tp) k = dictGet ep k) ∧
    (∀ remap rel (k old qq : String), dictGet rel k = some (.str old) →
      dictGet remap old = some qq →
      dictGet (remapEndpoint remap rel k) k = some (.str qq)) ∧
    (∀ nodes rels r, r ∈ rels →
      remapEndpoint (finalTempState getQ nodes).idRemap
        (remapEndpoint (finalTempState getQ nodes).idRemap r "source") "target"
        ∈ (resolveTemporaryNodes getQ nodes rels).2) ∧
    (∀ nodes rels n, n ∈ (resolveTemporaryNodes getQ nodes rels).1 →
      (finalTempState getQ nodes).toDelete.contains (nodeId n) = false) := by
  refine ⟨?_, ?_, ?_, ?_, ?_, ?_, ?_⟩
  · intro hmap
    rw [resolveTempStep, hnode]
    dsimp only
    rw [hold]
    simp only [hq, hqne, hmap, if_neg, reduceIte, ite_false]
  · intro j existing tp ep hmap hji hex htp htpne hep
    have htpe : tp.isEmpty = false := by
      cases tp with
      | nil => exact absurd rfl htpne
      | cons a b => rfl
    rw [resolveTempStep, hnode]
    dsimp only
    rw [hold]
    simp only [hq, hqne, hmap, hji, hex, htp, htpe, hep, Option.getD_some,
      ite_false, Bool.false_eq_true]
  · exact fun ep tp k v hnodup h => mergeTempProps_present ep tp k v hnodup h
  · exact fun ep tp k h => mergeTempProps_absent ep tp k h
  · intro remap rel k old qq hrel hremap
    rw [remapEndpoint, hrel]
    dsimp only
    rw [hremap]
    exact dictGet_dictSet_self _ _ _
  · intro nodes rels r hr
    have e : (resolveTemporaryNodes getQ nodes rels).2
        = rels.map (fun r =>
          remapEndpoint (finalTempState getQ nodes).idRemap
            (remapEndpoint (finalTempState getQ nodes).idRemap r "source")
            "target") := rfl
    rw [e]
    exact List.mem_map_of_mem _ hr
  · intro nodes rels n hn
    have e : (resolveTemporaryNodes getQ nodes rels).1
        = (finalTempState getQ nodes).store.filter
          (fun n => !(finalTempState getQ nodes).toDelete.contains (nodeId n)) := rfl
    rw [e] at hn
    have := List.of_mem_filter hn
    simpa using this

/-- Witness for C8: a single `BAIDU:X` node upgraded to `Q9` in place. -/
theorem c8_temp_id_upgrade_witness :
    resolveTempStep (fun n => if n = "X" then some "Q9" else Option.none)
      { store := [[("id", PVal.str "BAIDU:X")]]
        nodesMap := [("BAIDU:X", 0)]
        idRemap := []
        toDelete := [] } 0
      = { store := [[("id", PVal.str "Q9")]]
          nodesMap := [("BAIDU:X", 0), ("Q9", 0)]
          idRemap := [("BAIDU:X", "Q9")]
          toDelete := ["BAIDU:X"] } :=
  (c8_temp_id_upgrade (fun n => if n = "X" then some "Q9" else Option.none)
    { store := [[("id", PVal.str "BAIDU:X")]]
      nodesMap := [("BAIDU:X", 0)]
      idRemap := []
      toDelete := [] } 0 [("id", PVal.str "BAIDU:X")]
    "BAIDU:X" "Q9" rfl rfl (Or.inl rfl) rfl (by decide)).1 rfl

end ChineseElite
